import Mathlib

/-!
Verification development for the process/protocol core of the AIChemMCP
agent (file `agent.py`).  The Python code is shallowly embedded: JSON
documents become the inductive type `Json`, the line-delimited pipes become
lists of line payloads (the newline terminator is the line discipline and
is abstracted away, end of list is end of stream), Python dictionaries
become ordered association lists with in-place-overwrite insertion, and
Python exceptions become an explicit `PyError` outcome.  `json.dumps` and
`json.loads` are embedded as executable functions (`Json.dumps`,
`Json.parse`); numbers are modelled as integers (the correlation ids and
all documents appearing in the protocol are integral; float literals make
the embedded `Json.parse` fail where CPython would produce a float, a
corner no claim touches).
-/

namespace AIChem

/-- JSON documents, also used as the model of the Python runtime values
produced by `json.loads` and consumed by `json.dumps`. -/
inductive Json where
  | null : Json
  | bool (b : Bool) : Json
  | num (n : Int) : Json
  | str (s : String) : Json
  | arr (elems : List Json) : Json
  | obj (fields : List (String × Json)) : Json

/-- Python exceptions that the embedded code can raise. -/
inductive PyError where
  | jsonDecodeError : PyError
  | keyError : PyError
  | attributeError : PyError
  | typeError : PyError
deriving DecidableEq

/-- Lookup in a string-keyed Python dict (ordered association list). -/
def dictGet {α : Type} : List (String × α) → String → Option α
  | [], _ => none
  | (k, v) :: rest, key => if k = key then some v else dictGet rest key

/-- Assignment `d[k] = v` on a string-keyed Python dict: an existing key is
overwritten in place, a new key is appended at the end. -/
def dictSet {α : Type} : List (String × α) → String → α → List (String × α)
  | [], k, v => [(k, v)]
  | (k2, v2) :: rest, k, v =>
    if k2 = k then (k, v) :: rest else (k2, v2) :: dictSet rest k v

/-- Python key equality between two hashable loaded values (used for dict
keys; `True == 1` holds in Python, so booleans and numbers cross-compare). -/
def pyKeyEq : Json → Json → Bool
  | Json.null, Json.null => true
  | Json.bool x, Json.bool y => x = y
  | Json.bool x, Json.num m => (if x then (1 : Int) else 0) = m
  | Json.num m, Json.bool y => m = (if y then (1 : Int) else 0)
  | Json.num m, Json.num k => m = k
  | Json.str s, Json.str t => s = t
  | _, _ => false

/-- Lookup in a Python dict whose keys may be any hashable value (the tool
registry is such a dict: its keys come from the advertised tool names). -/
def regGet : List (Json × Json) → Json → Option Json
  | [], _ => none
  | (k, v) :: rest, key => if pyKeyEq k key then some v else regGet rest key

/-- Assignment on a hashable-keyed Python dict, overwrite in place. -/
def regSet : List (Json × Json) → Json → Json → List (Json × Json)
  | [], k, v => [(k, v)]
  | (k2, v2) :: rest, k, v =>
    if pyKeyEq k2 k then (k2, v) :: rest else (k2, v2) :: regSet rest k v

/-- Python truthiness of a loaded value (`if not method` in the source). -/
def pyFalsy : Json → Bool
  | Json.null => true
  | Json.bool b => !b
  | Json.num n => n = 0
  | Json.str s => s = ""
  | Json.arr l => l.isEmpty
  | Json.obj l => l.isEmpty

/-- The apostrophe character, used in the source error message text. -/
def apos : String := String.singleton (Char.ofNat 39)

/-- Opening curly brace character. -/
def lbrace : Char := Char.ofNat 123

/-- Closing curly brace character. -/
def rbrace : Char := Char.ofNat 125

mutual

/-- Python `repr` of a loaded value (string escape refinements of CPython
`repr` are not reproduced; no claim depends on them). -/
def pyRepr : Json → String
  | Json.null => "None"
  | Json.bool true => "True"
  | Json.bool false => "False"
  | Json.num n => toString n
  | Json.str s => apos ++ s ++ apos
  | Json.arr es => "[" ++ pyReprElems es ++ "]"
  | Json.obj fs => String.singleton lbrace ++ pyReprFields fs ++ String.singleton rbrace

/-- Comma-joined `repr` of list elements. -/
def pyReprElems : List Json → String
  | [] => ""
  | [e] => pyRepr e
  | e :: es => pyRepr e ++ ", " ++ pyReprElems es

/-- Comma-joined `repr` of dict items. -/
def pyReprFields : List (String × Json) → String
  | [] => ""
  | [(k, v)] => apos ++ k ++ apos ++ ": " ++ pyRepr v
  | (k, v) :: fs => apos ++ k ++ apos ++ ": " ++ pyRepr v ++ ", " ++ pyReprFields fs

end

/-- Python `str()` of a loaded value, as interpolated by an f-string. -/
def pyStr : Json → String
  | Json.str s => s
  | j => pyRepr j

/-- Little-endian decimal digits of a natural number, fuel-based so that it
is structurally recursive (and hence evaluable by the kernel). -/
def natDigitsRev : Nat → Nat → List Nat
  | 0, _ => []
  | fuel + 1, n => if n = 0 then [] else n % 10 :: natDigitsRev fuel (n / 10)

/-- Decimal digit character. -/
def digitChar (d : Nat) : Char := Char.ofNat (48 + d)

/-- Decimal representation of a natural number, as CPython `repr(int)`
produces for nonnegative integers. -/
def natToChars (n : Nat) : List Char :=
  if n = 0 then [digitChar 0] else ((natDigitsRev (n + 1) n).reverse).map digitChar

/-- Decimal representation of an integer (`repr(int)` in CPython, which is
what `json.dumps` emits for an int). -/
def intToChars (n : Int) : List Char :=
  if n < 0 then '-' :: natToChars n.natAbs else natToChars n.toNat

/-- Hexadecimal digit character, lowercase as CPython json emits. -/
def hexDigit (d : Nat) : Char :=
  if d < 10 then Char.ofNat (48 + d) else Char.ofNat (87 + d)

/-- Four-digit lowercase hexadecimal rendering of `n < 65536`. -/
def encodeHex4 (n : Nat) : List Char :=
  [hexDigit (n / 4096 % 16), hexDigit (n / 256 % 16), hexDigit (n / 16 % 16), hexDigit (n % 16)]

/-- Escape of a single character in `json.dumps` with its default
`ensure_ascii=True`: the two-character escapes for quote, backslash and the
usual control characters, `\u00xx` for the remaining control characters,
printable ASCII verbatim, `\uxxxx` for other characters of the basic
multilingual plane and a surrogate pair of escapes beyond it. -/
def escapeChar (c : Char) : List Char :=
  if c = '"' then ['\\', '"']
  else if c = '\\' then ['\\', '\\']
  else if c = '\n' then ['\\', 'n']
  else if c = '\r' then ['\\', 'r']
  else if c = '\t' then ['\\', 't']
  else if c.toNat = 8 then ['\\', 'b']
  else if c.toNat = 12 then ['\\', 'f']
  else if c.toNat < 32 then '\\' :: 'u' :: encodeHex4 c.toNat
  else if c.toNat < 127 then [c]
  else if c.toNat < 65536 then '\\' :: 'u' :: encodeHex4 c.toNat
  else
    ('\\' :: 'u' :: encodeHex4 (55296 + (c.toNat - 65536) / 1024)) ++
      ('\\' :: 'u' :: encodeHex4 (56320 + (c.toNat - 65536) % 1024))

/-- Escaped body of a serialized JSON string. -/
def escapeStr : List Char → List Char
  | [] => []
  | c :: cs => escapeChar c ++ escapeStr cs

mutual

/-- Serialization of a document by `json.dumps` with CPython default
separators (`", "` between items, `": "` after keys). -/
def dumpVal : Json → List Char
  | Json.null => ['n', 'u', 'l', 'l']
  | Json.bool true => ['t', 'r', 'u', 'e']
  | Json.bool false => ['f', 'a', 'l', 's', 'e']
  | Json.num n => intToChars n
  | Json.str s => '"' :: escapeStr s.data ++ ['"']
  | Json.arr es => '[' :: dumpElems es ++ [']']
  | Json.obj fs => lbrace :: dumpFields fs ++ [rbrace]

/-- Serialized array elements joined by `", "`. -/
def dumpElems : List Json → List Char
  | [] => []
  | [e] => dumpVal e
  | e :: es => dumpVal e ++ ',' :: ' ' :: dumpElems es

/-- Serialized object members joined by `", "`, keys rendered as JSON
strings followed by `": "`. -/
def dumpFields : List (String × Json) → List Char
  | [] => []
  | [(k, v)] => '"' :: escapeStr k.data ++ '"' :: ':' :: ' ' :: dumpVal v
  | (k, v) :: fs =>
    ('"' :: escapeStr k.data ++ '"' :: ':' :: ' ' :: dumpVal v) ++ ',' :: ' ' :: dumpFields fs

end

/-- Embedded `json.dumps`. -/
def Json.dumps (j : Json) : String := String.mk (dumpVal j)

/-- Value of a hexadecimal digit character. -/
def hexVal (c : Char) : Option Nat :=
  if 48 ≤ c.toNat ∧ c.toNat ≤ 57 then some (c.toNat - 48)
  else if 97 ≤ c.toNat ∧ c.toNat ≤ 102 then some (c.toNat - 87)
  else if 65 ≤ c.toNat ∧ c.toNat ≤ 70 then some (c.toNat - 55)
  else none

/-- Value of a decimal digit character. -/
def digitVal (c : Char) : Option Nat :=
  if 48 ≤ c.toNat ∧ c.toNat ≤ 57 then some (c.toNat - 48) else none

/-- Resolution of a two-character escape inside a JSON string. -/
def simpleEscape (c : Char) : Option Char :=
  if c = '"' then some '"'
  else if c = '\\' then some '\\'
  else if c = '/' then some '/'
  else if c = 'b' then some (Char.ofNat 8)
  else if c = 'f' then some (Char.ofNat 12)
  else if c = 'n' then some '\n'
  else if c = 'r' then some '\r'
  else if c = 't' then some '\t'
  else none

/-- JSON whitespace as accepted by the CPython decoder. -/
def isJsonWs (c : Char) : Bool :=
  c.toNat = 32 ∨ c.toNat = 9 ∨ c.toNat = 10 ∨ c.toNat = 13

/-- Skip leading JSON whitespace. -/
def skipWs : List Char → List Char
  | [] => []
  | c :: rest => if isJsonWs c then skipWs rest else c :: rest

/-- Resolution of one escape sequence after the backslash, as the CPython
decoder in strict mode: a two-character escape, or `\uXXXX` with
surrogate-pair combining; an unpaired surrogate escape is rejected
(CPython would produce a non-Unicode string there, which the model cannot
hold).  Returns the decoded character and the input after the escape. -/
def decodeEscape : List Char → Option (Char × List Char)
  | [] => none
  | e :: rest2 =>
    if e = 'u' then
      match rest2 with
      | a :: b :: c1 :: d1 :: rest3 =>
        match hexVal a, hexVal b, hexVal c1, hexVal d1 with
        | some x, some y, some z, some w =>
          let n := 4096 * x + 256 * y + 16 * z + w
          if n < 55296 ∨ 57343 < n then some (Char.ofNat n, rest3)
          else if n ≤ 56319 then
            match rest3 with
            | '\\' :: 'u' :: a2 :: b2 :: c2 :: d2 :: rest4 =>
              match hexVal a2, hexVal b2, hexVal c2, hexVal d2 with
              | some x2, some y2, some z2, some w2 =>
                let m := 4096 * x2 + 256 * y2 + 16 * z2 + w2
                if 56320 ≤ m ∧ m ≤ 57343 then
                  some (Char.ofNat (65536 + (n - 55296) * 1024 + (m - 56320)), rest4)
                else none
              | _, _, _, _ => none
            | _ => none
          else none
        | _, _, _, _ => none
      | _ => none
    else
      match simpleEscape e with
      | some ec => some (ec, rest2)
      | none => none

/-- Body of a JSON string up to its closing quote, decoding escapes via
`decodeEscape` and rejecting raw control characters, as the CPython
decoder in strict mode.  Fuel-indexed; every step consumes at least one
character, so any fuel above the input length is enough. -/
def parseStringBody : Nat → List Char → Option (List Char × List Char)
  | 0, _ => none
  | _ + 1, [] => none
  | fuel + 1, c :: rest =>
    if c = '"' then some ([], rest)
    else if c = '\\' then
      match decodeEscape rest with
      | some (ec, rest2) =>
        match parseStringBody fuel rest2 with
        | some (s, r) => some (ec :: s, r)
        | none => none
      | none => none
    else if c.toNat < 32 then none
    else
      match parseStringBody fuel rest with
      | some (s, r) => some (c :: s, r)
      | none => none

/-- Greedy run of decimal digits with an accumulator. -/
def parseDigits : Nat → List Char → Nat × List Char
  | acc, [] => (acc, [])
  | acc, c :: rest =>
    match digitVal c with
    | some d => parseDigits (acc * 10 + d) rest
    | none => (acc, c :: rest)

/-- Integer part of a JSON number after an optional minus sign: a single
zero, or a nonzero leading digit followed by a digit run. -/
def parseNumBody : List Char → Option (Nat × List Char)
  | [] => none
  | c :: rest =>
    if c = '0' then some (0, rest)
    else
      match digitVal c with
      | some d => some (parseDigits d rest)
      | none => none

/-- True when the remaining input would extend the just-parsed integer into
a float literal (which CPython would accept and the model rejects). -/
def floatStart : List Char → Bool
  | [] => false
  | c :: _ => c = '.' ∨ c = 'e' ∨ c = 'E'

/-- Rebuild a parsed member list with Python dict insertion semantics, as
the decoder materializes object members into a dict (on duplicate keys the
first position and the last value survive). -/
def mkObjFields (fs : List (String × Json)) : List (String × Json) :=
  fs.foldl (fun acc kv => dictSet acc kv.1 kv.2) []

mutual

/-- Fuel-indexed recursive-descent JSON value scanner mirroring the CPython
decoder (whitespace skipping in the positions the decoder skips it). -/
def parseValue : Nat → List Char → Option (Json × List Char)
  | 0, _ => none
  | fuel + 1, s =>
    match s with
    | [] => none
    | c :: rest =>
      if c = 'n' then
        match rest with
        | 'u' :: 'l' :: 'l' :: r => some (Json.null, r)
        | _ => none
      else if c = 't' then
        match rest with
        | 'r' :: 'u' :: 'e' :: r => some (Json.bool true, r)
        | _ => none
      else if c = 'f' then
        match rest with
        | 'a' :: 'l' :: 's' :: 'e' :: r => some (Json.bool false, r)
        | _ => none
      else if c = '"' then
        match parseStringBody (rest.length + 1) rest with
        | some (cs, r) => some (Json.str (String.mk cs), r)
        | none => none
      else if c = '[' then
        match skipWs rest with
        | [] => none
        | c2 :: r =>
          if c2 = ']' then some (Json.arr [], r)
          else
            match parseElems fuel (c2 :: r) with
            | some (es, r2) =>
              match r2 with
              | ']' :: r3 => some (Json.arr es, r3)
              | _ => none
            | none => none
      else if c = lbrace then
        match skipWs rest with
        | c2 :: r =>
          if c2 = rbrace then some (Json.obj [], r)
          else
            match parseFields fuel (c2 :: r) with
            | some (fs, r2) =>
              match r2 with
              | c3 :: r3 => if c3 = rbrace then some (Json.obj (mkObjFields fs), r3) else none
              | _ => none
            | none => none
        | [] => none
      else if c = '-' then
        match parseNumBody rest with
        | some (n, r) => if floatStart r then none else some (Json.num (-(n : Int)), r)
        | none => none
      else
        match parseNumBody (c :: rest) with
        | some (n, r) => if floatStart r then none else some (Json.num (n : Int), r)
        | none => none

/-- One or more comma-separated array elements; the returned remainder
starts at the closing bracket, which the caller consumes. -/
def parseElems : Nat → List Char → Option (List Json × List Char)
  | 0, _ => none
  | fuel + 1, s =>
    match parseValue fuel s with
    | some (v, r) =>
      match skipWs r with
      | ',' :: r2 =>
        match parseElems fuel (skipWs r2) with
        | some (es, r3) => some (v :: es, r3)
        | none => none
      | r1 => some ([v], r1)
    | none => none

/-- One or more comma-separated object members; the returned remainder
starts at the closing brace, which the caller consumes. -/
def parseFields : Nat → List Char → Option (List (String × Json) × List Char)
  | 0, _ => none
  | fuel + 1, s =>
    match s with
    | [] => none
    | c :: rest =>
      if c = '"' then
        match parseStringBody (rest.length + 1) rest with
        | some (k, r) =>
          match skipWs r with
          | ':' :: r2 =>
            match parseValue fuel (skipWs r2) with
            | some (v, r3) =>
              match skipWs r3 with
              | ',' :: r5 =>
                match parseFields fuel (skipWs r5) with
                | some (fs, r6) => some ((String.mk k, v) :: fs, r6)
                | none => none
              | r4 => some ([(String.mk k, v)], r4)
            | none => none
          | _ => none
        | none => none
      else none

end

/-- Embedded `json.loads` on one line payload: skip leading whitespace,
scan one value, require only whitespace after it. -/
def Json.parse (s : String) : Option Json :=
  let cs := skipWs s.data
  match parseValue (cs.length + 1) cs with
  | some (j, r) => if (skipWs r).isEmpty then some j else none
  | none => none

mutual

/-- Fuel bound needed by `parseValue` to scan a serialized document. -/
def jsize : Json → Nat
  | Json.null => 1
  | Json.bool _ => 1
  | Json.num _ => 1
  | Json.str _ => 1
  | Json.arr es => lsize es + 1
  | Json.obj fs => fsize fs + 1

/-- Fuel bound needed by `parseElems` for a serialized element list. -/
def lsize : List Json → Nat
  | [] => 0
  | e :: es => jsize e + lsize es + 1

/-- Fuel bound needed by `parseFields` for a serialized member list. -/
def fsize : List (String × Json) → Nat
  | [] => 0
  | (_, v) :: fs => jsize v + fsize fs + 1

end

mutual

/-- Canonical documents: every object below the value has pairwise distinct
keys, the invariant every value held by a Python dict tree satisfies. -/
def wfVal : Json → Bool
  | Json.null => true
  | Json.bool _ => true
  | Json.num _ => true
  | Json.str _ => true
  | Json.arr es => wfElems es
  | Json.obj fs => noDupKeys fs && wfFields fs

/-- Canonicity of every element of a list. -/
def wfElems : List Json → Bool
  | [] => true
  | e :: es => wfVal e && wfElems es

/-- Canonicity of every member value of an object. -/
def wfFields : List (String × Json) → Bool
  | [] => true
  | (_, v) :: fs => wfVal v && wfFields fs

/-- Pairwise distinctness of the keys of a member list. -/
def noDupKeys : List (String × Json) → Bool
  | [] => true
  | (k, _) :: fs => !(fs.any (fun kv => kv.1 == k)) && noDupKeys fs

end

/-- The registry `self.tools`: a Python dict keyed by the advertised tool
names (any hashable value), holding the advertised tool documents. -/
abbrev Registry := List (Json × Json)

/-- The model of one supervised process as the dispatcher sees it: the
lines written so far to its input pipe and the lines still unread on its
output pipe.  The error stream is drained by an independent logging thread
and never touches the protocol, so it is not part of the handle. -/
structure ServerHandle where
  stdinWrites : List String
  stdout : List String

/-- The protocol-relevant state of the `Agent` object: `self.tools` and
`self.servers` (keyed by the server name given to `start_server`). -/
structure Agent where
  tools : Registry
  servers : List (String × ServerHandle)

/-- Attribute access `obj.get(k, d)`: default when the key is absent, and
`AttributeError` when the receiver is not a dict. -/
def pyGetD (j : Json) (k : String) (d : Json) : Except PyError Json :=
  match j with
  | Json.obj fs => Except.ok ((dictGet fs k).getD d)
  | _ => Except.error PyError.attributeError

/-- Subscript `obj[k]` for a string subscript: `KeyError` when absent and
`TypeError` when the receiver is not a dict. -/
def pyGetItem (j : Json) (k : String) : Except PyError Json :=
  match j with
  | Json.obj fs =>
    match dictGet fs k with
    | some v => Except.ok v
    | none => Except.error PyError.keyError
  | _ => Except.error PyError.typeError

/-- Capability extraction of `discover_tools`, line 51 of the source: the
chain `adv_data.get("params", {}).get("server", {}).get("capabilities",
{}).get("tools", [])`. -/
def advertisedTools (adv : Json) : Except PyError Json :=
  (pyGetD adv "params" (Json.obj [])).bind fun a =>
  (pyGetD a "server" (Json.obj [])).bind fun b =>
  (pyGetD b "capabilities" (Json.obj [])).bind fun c =>
  pyGetD c "tools" (Json.arr [])

/-- Registration loop of `discover_tools`, lines 52 to 55 of the source:
for each advertised tool, `self.tools[tool['name']] = tool` followed by
setting its `server_name` member to the owning server name.  The registry
reached when an iteration raises is returned alongside the exception. -/
def registerTools (name : String) : Registry → List Json → Registry × Option PyError
  | tools, [] => (tools, none)
  | tools, t :: ts =>
    match t with
    | Json.obj fs =>
      match dictGet fs "name" with
      | none => (tools, some PyError.keyError)
      | some nk =>
        match nk with
        | Json.arr _ => (tools, some PyError.typeError)
        | Json.obj _ => (tools, some PyError.typeError)
        | _ =>
          registerTools name
            (regSet tools nk (Json.obj (dictSet fs "server_name" (Json.str name)))) ts
    | _ => (tools, some PyError.typeError)

/-- One iteration of the discovery loop for the server `name`: read one
line from its output stream (end of stream reads as the empty string,
which `json.loads` rejects), parse it, extract the capability list and
register its entries.  A value that is not a list either iterates zero
times (empty string, empty dict) or raises on its first element. -/
def discoverStep (tools : Registry) (name : String) (h : ServerHandle) :
    (Registry × Option PyError) × ServerHandle :=
  let line := h.stdout.headD ""
  let h2 : ServerHandle := { stdinWrites := h.stdinWrites, stdout := h.stdout.tail }
  match Json.parse line with
  | none => ((tools, some PyError.jsonDecodeError), h2)
  | some adv =>
    match advertisedTools adv with
    | Except.error e => ((tools, some e), h2)
    | Except.ok toolsJ =>
      match toolsJ with
      | Json.arr ts => (registerTools name tools ts, h2)
      | Json.str s => if s = "" then ((tools, none), h2) else ((tools, some PyError.typeError), h2)
      | Json.obj fs =>
        if fs.isEmpty then ((tools, none), h2) else ((tools, some PyError.typeError), h2)
      | _ => ((tools, some PyError.typeError), h2)

/-- Discovery loop over the supervised servers in registration order; an
exception aborts the remaining iterations (nothing in the source catches
it), with the registry and stream state reached so far preserved. -/
def discoverLoop (tools : Registry) :
    List (String × ServerHandle) → Registry × List (String × ServerHandle) × Option PyError
  | [] => (tools, [], none)
  | (name, h) :: rest =>
    match discoverStep tools name h with
    | ((tools2, none), h2) =>
      match discoverLoop tools2 rest with
      | (tf, rest2, e) => (tf, (name, h2) :: rest2, e)
    | ((tools2, some e), h2) => (tools2, (name, h2) :: rest, e)

/-- Embedded `Agent.discover_tools`: the final agent state plus the
exception that escaped the loop, if any. -/
def discover_tools (ag : Agent) : Agent × Option PyError :=
  match discoverLoop ag.tools ag.servers with
  | (tools2, servers2, e) => ({ tools := tools2, servers := servers2 }, e)

/-- The error document `{"error": f"Tool '{method}' not found."}` returned
for an unregistered method. -/
def unknownToolJson (m : Json) : Json :=
  Json.obj [("error", Json.str ("Tool " ++ apos ++ pyStr m ++ apos ++ " not found."))]

/-- The error document `{"error": "Server connection closed."}` returned
when the stream ends before a matching response. -/
def connClosedJson : Json :=
  Json.obj [("error", Json.str "Server connection closed.")]

/-- Python equality between a loaded value and the integer request id
(`response.get("id") == request_id`; a boolean compares as its int value,
every non-number is simply unequal). -/
def pyEqInt (j : Json) (n : Int) : Bool :=
  match j with
  | Json.num m => m = n
  | Json.bool b => (if b then (1 : Int) else 0) = n
  | _ => false

/-- The request document built by the dispatcher, lines 93 to 98 of the
source. -/
def mkRequest (method : Json) (params : Json) (id : Int) : Json :=
  Json.obj [("jsonrpc", Json.str "2.0"), ("method", method), ("params", params),
    ("id", Json.num id)]

/-- Response-wait loop of the dispatcher, lines 105 to 112 of the source:
read a line (end of stream returns the connection-closed document), parse
it (failure raises `json.JSONDecodeError`), take `.get("id")` (raising
`AttributeError` on a non-dict) and return the response when the id
matches, otherwise discard the line and keep reading.  Returns the loop
outcome and the lines left unread. -/
def waitLoop (rid : Int) : List String → Except PyError Json × List String
  | [] => (Except.ok connClosedJson, [])
  | line :: rest =>
    match Json.parse line with
    | none => (Except.error PyError.jsonDecodeError, rest)
    | some resp =>
      match resp with
      | Json.obj fs =>
        if pyEqInt ((dictGet fs "id").getD Json.null) rid then (Except.ok resp, rest)
        else waitLoop rid rest
      | _ => (Except.error PyError.attributeError, rest)

/-- Embedded `Agent.dispatch_tool_call`.  The correlation id
`int(time.time() * 1000)` is nondeterministic at this level and is taken
as the argument `rid`.  Returns the call outcome (returned document or
escaped exception) together with the final agent state. -/
def dispatch_tool_call (ag : Agent) (tool_call : List (String × Json)) (rid : Int) :
    Except PyError Json × Agent :=
  let mj := (dictGet tool_call "method").getD Json.null
  if pyFalsy mj then (Except.ok (unknownToolJson mj), ag)
  else
    match mj with
    | Json.arr _ => (Except.error PyError.typeError, ag)
    | Json.obj _ => (Except.error PyError.typeError, ag)
    | _ =>
      match regGet ag.tools mj with
      | none => (Except.ok (unknownToolJson mj), ag)
      | some tool =>
        match pyGetItem tool "server_name" with
        | Except.error e => (Except.error e, ag)
        | Except.ok snJ =>
          match snJ with
          | Json.arr _ => (Except.error PyError.typeError, ag)
          | Json.obj _ => (Except.error PyError.typeError, ag)
          | Json.str sname =>
            match dictGet ag.servers sname with
            | none => (Except.error PyError.keyError, ag)
            | some h =>
              let params := (dictGet tool_call "params").getD (Json.obj [])
              let req := mkRequest mj params rid
              let (out, remaining) := waitLoop rid h.stdout
              let h2 : ServerHandle :=
                { stdinWrites := h.stdinWrites ++ [Json.dumps req], stdout := remaining }
              (out, { tools := ag.tools, servers := dictSet ag.servers sname h2 })
          | _ => (Except.error PyError.keyError, ag)

/-- Fixed header of the planner prompt, lines 116 to 119 of the source. -/
def plannerHeader : String :=
  "# 角色与目标\n" ++
  "你是一个专家级的实验室工作流规划师。你的任务是根据用户的目标，将一系列可用的基础工具，组合成一个逻辑正确的、有序的步骤列表来完成任务。\n\n" ++
  "# 可用工具\n---\n"

/-- Fixed trailer of the planner prompt, lines 123 to 126 of the source. -/
def plannerFooter : String :=
  "---\n\n" ++
  "# 任务\n" ++
  "请分析用户的目标，并生成一个包含所有必要步骤的完整计划。你的最终输出必须是一个调用`submit_workflow_plan`工具的请求，其中包含所有步骤。\n"

/-- Tool catalogue lines of the planner prompt, lines 120 to 122 of the
source: one `- {name}: {tool['description']}\n` line per registry entry,
in registry order; a missing description member raises `KeyError` and a
non-dict tool raises `TypeError`. -/
def plannerToolLines : Registry → Except PyError String
  | [] => Except.ok ""
  | (n, t) :: rest =>
    match pyGetItem t "description" with
    | Except.error e => Except.error e
    | Except.ok d =>
      match plannerToolLines rest with
      | Except.error e => Except.error e
      | Except.ok tail => Except.ok ("- " ++ pyStr n ++ ": " ++ pyStr d ++ "\n" ++ tail)

/-- Embedded `Agent.build_planner_system_prompt`. -/
def build_planner_system_prompt (ag : Agent) : Except PyError String :=
  match plannerToolLines ag.tools with
  | Except.error e => Except.error e
  | Except.ok mid => Except.ok (plannerHeader ++ mid ++ plannerFooter)

/-- Projection of a registry entry to the data the planner prompt may
depend on: the tool name and the outcome of looking up its description. -/
def nameDescProj (kv : Json × Json) : Json × Except PyError Json :=
  (kv.1, pyGetItem kv.2 "description")

end AIChem

namespace AIChem

theorem toNat_ofNat_valid {n : Nat} (h : n.isValidChar) : (Char.ofNat n).toNat = n := by
  rw [Char.ofNat, dif_pos h]
  rfl

theorem valid_of_lt {n : Nat} (h : n < 55296) : n.isValidChar := Or.inl h

theorem char_toNat_inj {c d : Char} (h : c.toNat = d.toNat) : c = d :=
  Char.eq_of_val_eq (UInt32.ext h)

theorem hexVal_hexDigit (d : Nat) (h : d < 16) : hexVal (hexDigit d) = some d := by
  unfold hexVal hexDigit
  by_cases h10 : d < 10
  · rw [if_pos h10]
    rw [toNat_ofNat_valid (valid_of_lt (by omega))]
    rw [if_pos (by omega)]
    congr 1
    omega
  · rw [if_neg h10]
    rw [toNat_ofNat_valid (valid_of_lt (by omega))]
    rw [if_neg (by omega), if_pos (by omega)]
    congr 1
    omega

theorem digitChar_toNat {d : Nat} (h : d < 10) : (digitChar d).toNat = 48 + d :=
  toNat_ofNat_valid (valid_of_lt (by omega))

theorem digitVal_digitChar {d : Nat} (h : d < 10) : digitVal (digitChar d) = some d := by
  unfold digitVal
  rw [digitChar_toNat h, if_pos (by omega)]
  congr 1
  omega

theorem hex4_reassemble {n : Nat} (h : n < 65536) :
    4096 * (n / 4096 % 16) + 256 * (n / 256 % 16) + 16 * (n / 16 % 16) + n % 16 = n := by
  omega

theorem decodeEscape_hex {n : Nat} (t : List Char) (hn : n < 65536)
    (hs : n < 55296 ∨ 57343 < n) :
    decodeEscape ('u' :: encodeHex4 n ++ t) = some (Char.ofNat n, t) := by
  show decodeEscape ('u' :: (hexDigit (n / 4096 % 16) :: hexDigit (n / 256 % 16)
    :: hexDigit (n / 16 % 16) :: hexDigit (n % 16) :: t)) = _
  simp only [decodeEscape, if_true,
    hexVal_hexDigit _ (show n / 4096 % 16 < 16 by omega),
    hexVal_hexDigit _ (show n / 256 % 16 < 16 by omega),
    hexVal_hexDigit _ (show n / 16 % 16 < 16 by omega),
    hexVal_hexDigit _ (show n % 16 < 16 by omega)]
  simp only [hex4_reassemble hn]
  rw [if_pos hs]

theorem decodeEscape_surr {hi lo : Nat} (t : List Char) (h1 : 55296 ≤ hi) (h2 : hi ≤ 56319)
    (h3 : 56320 ≤ lo) (h4 : lo ≤ 57343) :
    decodeEscape ('u' :: encodeHex4 hi ++ ('\\' :: 'u' :: encodeHex4 lo ++ t)) =
      some (Char.ofNat (65536 + (hi - 55296) * 1024 + (lo - 56320)), t) := by
  show decodeEscape ('u' :: (hexDigit (hi / 4096 % 16) :: hexDigit (hi / 256 % 16)
    :: hexDigit (hi / 16 % 16) :: hexDigit (hi % 16) ::
      ('\\' :: 'u' :: (hexDigit (lo / 4096 % 16) :: hexDigit (lo / 256 % 16)
        :: hexDigit (lo / 16 % 16) :: hexDigit (lo % 16) :: t)))) = _
  simp only [decodeEscape, if_true,
    hexVal_hexDigit _ (show hi / 4096 % 16 < 16 by omega),
    hexVal_hexDigit _ (show hi / 256 % 16 < 16 by omega),
    hexVal_hexDigit _ (show hi / 16 % 16 < 16 by omega),
    hexVal_hexDigit _ (show hi % 16 < 16 by omega)]
  simp only [hex4_reassemble (show hi < 65536 by omega)]
  rw [if_neg (by omega), if_pos (by omega)]
  simp only [hexVal_hexDigit _ (show lo / 4096 % 16 < 16 by omega),
    hexVal_hexDigit _ (show lo / 256 % 16 < 16 by omega),
    hexVal_hexDigit _ (show lo / 16 % 16 < 16 by omega),
    hexVal_hexDigit _ (show lo % 16 < 16 by omega)]
  simp only [hex4_reassemble (show lo < 65536 by omega)]
  rw [if_pos (by omega)]

end AIChem

namespace AIChem

theorem char_toNat_valid (c : Char) :
    c.toNat < 55296 ∨ (57343 < c.toNat ∧ c.toNat < 1114112) := by
  have h := c.valid
  rcases h with h | h
  · left
    exact h
  · right
    exact ⟨h.1, h.2⟩

theorem psb_cons_escape {fuel : Nat} {rest rest2 : List Char} {ec : Char}
    (h : decodeEscape rest = some (ec, rest2)) :
    parseStringBody (fuel + 1) ('\\' :: rest) =
      (parseStringBody fuel rest2).map (fun pr => (ec :: pr.1, pr.2)) := by
  simp only [parseStringBody, if_neg (show ¬ ('\\' = '"') by decide), if_pos rfl, h]
  cases parseStringBody fuel rest2 with
  | none => rfl
  | some pr => rfl

theorem psb_cons_plain {fuel : Nat} {c : Char} {t : List Char} (h1 : c ≠ '"')
    (h2 : c ≠ '\\') (h3 : ¬ c.toNat < 32) :
    parseStringBody (fuel + 1) (c :: t) =
      (parseStringBody fuel t).map (fun pr => (c :: pr.1, pr.2)) := by
  simp only [parseStringBody, if_neg h1, if_neg h2, if_neg h3]
  cases parseStringBody fuel t with
  | none => rfl
  | some pr => rfl

theorem escapeChar_step (c : Char) (fuel : Nat) (t : List Char) :
    parseStringBody (fuel + 1) (escapeChar c ++ t) =
      (parseStringBody fuel t).map (fun pr => (c :: pr.1, pr.2)) := by
  by_cases hq : c = '"'
  · subst hq
    exact psb_cons_escape rfl
  by_cases hb : c = '\\'
  · subst hb
    exact psb_cons_escape rfl
  by_cases hn : c = '\n'
  · subst hn
    exact psb_cons_escape rfl
  by_cases hr : c = '\r'
  · subst hr
    exact psb_cons_escape rfl
  by_cases ht : c = '\t'
  · subst ht
    exact psb_cons_escape rfl
  by_cases h8 : c.toNat = 8
  · have hc : c = Char.ofNat 8 := by
      rw [← h8, Char.ofNat_toNat]
    subst hc
    rw [show escapeChar (Char.ofNat 8) = ['\\', 'b'] by rfl]
    exact psb_cons_escape rfl
  by_cases h12 : c.toNat = 12
  · have hc : c = Char.ofNat 12 := by
      rw [← h12, Char.ofNat_toNat]
    subst hc
    rw [show escapeChar (Char.ofNat 12) = ['\\', 'f'] by rfl]
    exact psb_cons_escape rfl
  by_cases h32 : c.toNat < 32
  · have he : escapeChar c = '\\' :: 'u' :: encodeHex4 c.toNat := by
      unfold escapeChar
      rw [if_neg hq, if_neg hb, if_neg hn, if_neg hr, if_neg ht, if_neg h8, if_neg h12,
        if_pos h32]
    rw [he, List.cons_append, List.cons_append]
    have hd := @decodeEscape_hex c.toNat t (by omega) (Or.inl (by omega))
    rw [Char.ofNat_toNat] at hd
    exact psb_cons_escape hd
  by_cases h127 : c.toNat < 127
  · have he : escapeChar c = [c] := by
      unfold escapeChar
      rw [if_neg hq, if_neg hb, if_neg hn, if_neg hr, if_neg ht, if_neg h8, if_neg h12,
        if_neg h32, if_pos h127]
    rw [he]
    exact psb_cons_plain hq hb h32
  by_cases h64k : c.toNat < 65536
  · have he : escapeChar c = '\\' :: 'u' :: encodeHex4 c.toNat := by
      unfold escapeChar
      rw [if_neg hq, if_neg hb, if_neg hn, if_neg hr, if_neg ht, if_neg h8, if_neg h12,
        if_neg h32, if_neg h127, if_pos h64k]
    rw [he, List.cons_append, List.cons_append]
    have hvc := char_toNat_valid c
    have hd := @decodeEscape_hex c.toNat t (by omega) (by omega)
    rw [Char.ofNat_toNat] at hd
    exact psb_cons_escape hd
  · have he : escapeChar c =
        ('\\' :: 'u' :: encodeHex4 (55296 + (c.toNat - 65536) / 1024)) ++
          ('\\' :: 'u' :: encodeHex4 (56320 + (c.toNat - 65536) % 1024)) := by
      unfold escapeChar
      rw [if_neg hq, if_neg hb, if_neg hn, if_neg hr, if_neg ht, if_neg h8, if_neg h12,
        if_neg h32, if_neg h127, if_neg h64k]
    have hvc := char_toNat_valid c
    rw [he]
    rw [show (('\\' :: 'u' :: encodeHex4 (55296 + (c.toNat - 65536) / 1024)) ++
          ('\\' :: 'u' :: encodeHex4 (56320 + (c.toNat - 65536) % 1024))) ++ t =
        '\\' :: ('u' :: encodeHex4 (55296 + (c.toNat - 65536) / 1024) ++
          ('\\' :: 'u' :: encodeHex4 (56320 + (c.toNat - 65536) % 1024) ++ t)) by
      simp]
    have hd := @decodeEscape_surr (55296 + (c.toNat - 65536) / 1024)
      (56320 + (c.toNat - 65536) % 1024) t
      (by omega) (by omega) (by omega) (by omega)
    have harg : 65536 + (55296 + (c.toNat - 65536) / 1024 - 55296) * 1024 +
        (56320 + (c.toNat - 65536) % 1024 - 56320) = c.toNat := by
      omega
    rw [harg, Char.ofNat_toNat] at hd
    exact psb_cons_escape hd

theorem escapeStr_parse (cs : List Char) :
    ∀ (fuel : Nat) (t : List Char), cs.length < fuel →
      parseStringBody fuel (escapeStr cs ++ '"' :: t) = some (cs, t) := by
  induction cs with
  | nil =>
    intro fuel t hf
    match fuel, hf with
    | fuel + 1, _ =>
      simp only [escapeStr, List.nil_append]
      simp only [parseStringBody, if_true]
  | cons c cs ih =>
    intro fuel t hf
    match fuel, hf with
    | fuel + 1, hf =>
      simp only [escapeStr, List.append_assoc]
      rw [escapeChar_step c fuel (escapeStr cs ++ '"' :: t)]
      rw [ih fuel t (by simpa using Nat.lt_of_succ_lt_succ hf)]
      rfl

end AIChem

namespace AIChem

theorem natDigitsRev_eq (fuel n : Nat) (h : n ≤ fuel) : natDigitsRev fuel n = Nat.digits 10 n := by
  induction fuel generalizing n with
  | zero =>
    have : n = 0 := by omega
    subst this
    simp [natDigitsRev]
  | succ fuel ih =>
    by_cases h0 : n = 0
    · subst h0
      simp [natDigitsRev]
    · rw [natDigitsRev, if_neg h0]
      rw [Nat.digits_def' (by norm_num : (1 : Nat) < 10) (Nat.pos_of_ne_zero h0)]
      rw [ih (n / 10) (by omega)]

theorem foldr_eq_ofDigits (l : List Nat) :
    l.foldr (fun d a => a * 10 + d) 0 = Nat.ofDigits 10 l := by
  induction l with
  | nil => simp [Nat.ofDigits]
  | cons d l ih =>
    simp [Nat.ofDigits, ih]
    ring

theorem parseDigits_map (ds : List Nat) (acc : Nat) (t : List Char)
    (hd : ∀ d ∈ ds, d < 10) (ht : ∀ c ∈ t.head?, digitVal c = none) :
    parseDigits acc (ds.map digitChar ++ t) =
      (ds.foldl (fun a d => a * 10 + d) acc, t) := by
  induction ds generalizing acc with
  | nil =>
    cases t with
    | nil => rfl
    | cons c r =>
      have := ht c rfl
      simp only [List.map_nil, List.nil_append, parseDigits, this, List.foldl_nil]
  | cons d ds ih =>
    simp only [List.map_cons, List.cons_append, parseDigits,
      digitVal_digitChar (hd d (by simp)), List.append_eq]
    rw [ih (acc * 10 + d) (fun x hx => hd x (by simp [hx]))]
    rfl

theorem natToChars_parse (n : Nat) (t : List Char)
    (ht : ∀ c ∈ t.head?, digitVal c = none) :
    parseNumBody (natToChars n ++ t) = some (n, t) := by
  by_cases h0 : n = 0
  · subst h0
    unfold natToChars
    rw [if_pos rfl]
    show parseNumBody (digitChar 0 :: t) = some (0, t)
    simp only [parseNumBody]
    rw [if_pos (show digitChar 0 = '0' by decide)]
  · unfold natToChars
    rw [if_neg h0, natDigitsRev_eq _ _ (by omega)]
    have hnn : Nat.digits 10 n ≠ [] := Nat.digits_ne_nil_iff_ne_zero.mpr h0
    have hrev : (Nat.digits 10 n).reverse ≠ [] := by
      simpa using hnn
    obtain ⟨d0, ds, hds⟩ := List.exists_cons_of_ne_nil hrev
    have hmem : ∀ d ∈ (Nat.digits 10 n).reverse, d < 10 := by
      intro d hd2
      exact Nat.digits_lt_base (by norm_num) (List.mem_reverse.mp hd2)
    have hd0lt : d0 < 10 := hmem d0 (by rw [hds]; simp)
    have hd0ne : d0 ≠ 0 := by
      have hq : (Nat.digits 10 n).getLast? = some d0 := by
        rw [← List.head?_reverse, hds]
        rfl
      have hlast : (Nat.digits 10 n).getLast hnn ≠ 0 := Nat.getLast_digit_ne_zero 10 h0
      rw [List.getLast?_eq_getLast _ hnn] at hq
      have := Option.some.inj hq
      omega
    rw [hds]
    simp only [List.map_cons, List.cons_append]
    simp only [parseNumBody]
    have hne0 : digitChar d0 ≠ '0' := by
      intro hcontra
      have := congrArg Char.toNat hcontra
      rw [digitChar_toNat hd0lt] at this
      simp at this
      omega
    rw [if_neg hne0, digitVal_digitChar hd0lt]
    show some (parseDigits d0 (List.map digitChar ds ++ t)) = some (n, t)
    rw [parseDigits_map ds d0 t (fun x hx => hmem x (by rw [hds]; simp [hx])) ht]
    have hfold : ds.foldl (fun a d => a * 10 + d) d0 = n := by
      have h1 : (d0 :: ds).foldl (fun a d => a * 10 + d) 0 = n := by
        rw [← hds]
        rw [List.foldl_reverse]
        have h2 : (Nat.digits 10 n).foldr (fun x y => y * 10 + x) 0 =
            (Nat.digits 10 n).foldr (fun d a => a * 10 + d) 0 := rfl
        rw [h2, foldr_eq_ofDigits, Nat.ofDigits_digits]
      simpa using h1
    rw [hfold]

end AIChem

namespace AIChem

theorem skipWs_cons_not_ws {c : Char} (r : List Char) (h : isJsonWs c = false) :
    skipWs (c :: r) = c :: r := by
  simp [skipWs, h]

theorem skipWs_cons_space (r : List Char) : skipWs (' ' :: r) = skipWs r := by
  simp [skipWs, isJsonWs]

theorem escapeChar_cons (c : Char) : ∃ a l, escapeChar c = a :: l := by
  unfold escapeChar
  by_cases h1 : c = '"'
  · rw [if_pos h1]; exact ⟨_, _, rfl⟩
  rw [if_neg h1]
  by_cases h2 : c = '\\'
  · rw [if_pos h2]; exact ⟨_, _, rfl⟩
  rw [if_neg h2]
  by_cases h3 : c = '\n'
  · rw [if_pos h3]; exact ⟨_, _, rfl⟩
  rw [if_neg h3]
  by_cases h4 : c = '\r'
  · rw [if_pos h4]; exact ⟨_, _, rfl⟩
  rw [if_neg h4]
  by_cases h5 : c = '\t'
  · rw [if_pos h5]; exact ⟨_, _, rfl⟩
  rw [if_neg h5]
  by_cases h6 : c.toNat = 8
  · rw [if_pos h6]; exact ⟨_, _, rfl⟩
  rw [if_neg h6]
  by_cases h7 : c.toNat = 12
  · rw [if_pos h7]; exact ⟨_, _, rfl⟩
  rw [if_neg h7]
  by_cases h8 : c.toNat < 32
  · rw [if_pos h8]; exact ⟨_, _, rfl⟩
  rw [if_neg h8]
  by_cases h9 : c.toNat < 127
  · rw [if_pos h9]; exact ⟨_, _, rfl⟩
  rw [if_neg h9]
  by_cases h10 : c.toNat < 65536
  · rw [if_pos h10]; exact ⟨_, _, rfl⟩
  rw [if_neg h10]
  exact ⟨_, _, rfl⟩

theorem escapeChar_ne_nil (c : Char) : escapeChar c ≠ [] := by
  obtain ⟨a, l, h⟩ := escapeChar_cons c
  rw [h]
  exact List.cons_ne_nil _ _

theorem escapeStr_length (cs : List Char) : cs.length ≤ (escapeStr cs).length := by
  induction cs with
  | nil => simp [escapeStr]
  | cons c cs ih =>
    simp only [escapeStr, List.length_append, List.length_cons]
    have h1 : 1 ≤ (escapeChar c).length := by
      cases hc : escapeChar c with
      | nil => exact absurd hc (escapeChar_ne_nil c)
      | cons a l => simp
    omega

theorem natToChars_head (n : Nat) : ∃ d r, natToChars n = digitChar d :: r ∧ d < 10 := by
  by_cases h0 : n = 0
  · subst h0
    exact ⟨0, [], rfl, by omega⟩
  · unfold natToChars
    rw [if_neg h0, natDigitsRev_eq _ _ (by omega)]
    have hnn : Nat.digits 10 n ≠ [] := Nat.digits_ne_nil_iff_ne_zero.mpr h0
    have hrev : (Nat.digits 10 n).reverse ≠ [] := by simpa using hnn
    obtain ⟨d0, ds, hds⟩ := List.exists_cons_of_ne_nil hrev
    refine ⟨d0, ds.map digitChar, ?_, ?_⟩
    · rw [hds]
      simp
    · exact Nat.digits_lt_base (by norm_num)
        (List.mem_reverse.mp (by rw [hds]; simp))

theorem digitChar_ne {d : Nat} (hd : d < 10) {c : Char} (hc : c.toNat < 48 ∨ 57 < c.toNat) :
    digitChar d ≠ c := by
  intro h
  have := congrArg Char.toNat h
  rw [digitChar_toNat hd] at this
  omega

theorem dumpVal_head (j : Json) :
    ∃ c r, dumpVal j = c :: r ∧ isJsonWs c = false ∧ c ≠ ']' := by
  cases j with
  | null => exact ⟨'n', _, rfl, by decide, by decide⟩
  | bool b =>
    cases b with
    | true => exact ⟨'t', _, rfl, by decide, by decide⟩
    | false => exact ⟨'f', _, rfl, by decide, by decide⟩
  | num n =>
    show ∃ c r, intToChars n = c :: r ∧ isJsonWs c = false ∧ c ≠ ']'
    unfold intToChars
    by_cases hn : n < 0
    · rw [if_pos hn]
      exact ⟨'-', _, rfl, by decide, by decide⟩
    · rw [if_neg hn]
      obtain ⟨d, r, hr, hd⟩ := natToChars_head n.toNat
      refine ⟨digitChar d, r, hr, ?_, ?_⟩
      · simp only [isJsonWs, digitChar_toNat hd]
        simp only [decide_eq_false_iff_not]
        push_neg
        omega
      · intro h
        have := congrArg Char.toNat h
        rw [digitChar_toNat hd] at this
        simp at this
        omega
  | str s => exact ⟨'"', _, rfl, by decide, by decide⟩
  | arr es => exact ⟨'[', _, rfl, by decide, by decide⟩
  | obj fs => exact ⟨lbrace, _, rfl, by decide, by decide⟩

theorem dumpElems_head (es : List Json) (h : es ≠ []) :
    ∃ c r, dumpElems es = c :: r ∧ isJsonWs c = false ∧ c ≠ ']' := by
  cases es with
  | nil => exact absurd rfl h
  | cons e es =>
    obtain ⟨c, r, hr, hws, hne⟩ := dumpVal_head e
    cases es with
    | nil => exact ⟨c, r, by simp [dumpElems, hr], hws, hne⟩
    | cons e2 es2 =>
      exact ⟨c, r ++ ',' :: ' ' :: dumpElems (e2 :: es2), by simp [dumpElems, hr], hws, hne⟩

theorem dictSet_append {α : Type} (acc : List (String × α)) (k : String) (v : α)
    (h : ∀ kv ∈ acc, kv.1 ≠ k) : dictSet acc k v = acc ++ [(k, v)] := by
  induction acc with
  | nil => rfl
  | cons kv acc ih =>
    cases kv with
    | mk k2 v2 =>
      simp only [dictSet]
      rw [if_neg (h (k2, v2) (by simp))]
      rw [ih (fun x hx => h x (by simp [hx]))]
      rfl

theorem foldl_dictSet (fs : List (String × Json)) :
    ∀ acc : List (String × Json), (∀ kv ∈ acc, ∀ kv2 ∈ fs, kv.1 ≠ kv2.1) →
      noDupKeys fs = true →
      fs.foldl (fun a kv => dictSet a kv.1 kv.2) acc = acc ++ fs := by
  induction fs with
  | nil =>
    intro acc _ _
    simp
  | cons kv fs ih =>
    intro acc hdisj hnd
    cases kv with
    | mk k v =>
      simp only [List.foldl_cons]
      rw [dictSet_append acc k v (fun x hx => hdisj x hx (k, v) (by simp))]
      have hnd2 : noDupKeys fs = true := by
        simp only [noDupKeys, Bool.and_eq_true] at hnd
        exact hnd.2
      have hanyf : ∀ kv2 ∈ fs, kv2.1 ≠ k := by
        simp only [noDupKeys, Bool.and_eq_true, Bool.not_eq_true'] at hnd
        intro kv2 hkv2 hcontra
        have := List.any_eq_false.mp hnd.1 kv2 hkv2
        simp [hcontra] at this
      rw [ih (acc ++ [(k, v)]) ?_ hnd2]
      · simp
      · intro x hx kv2 hkv2
        rcases List.mem_append.mp hx with hx1 | hx2
        · exact hdisj x hx1 kv2 (by simp [hkv2])
        · simp at hx2
          rw [hx2]
          exact fun hcontra => hanyf kv2 hkv2 hcontra.symm

theorem mkObjFields_self {fs : List (String × Json)} (h : noDupKeys fs = true) :
    mkObjFields fs = fs := by
  unfold mkObjFields
  rw [foldl_dictSet fs [] (by simp) h]
  simp

end AIChem

namespace AIChem

theorem pv_quote (fuel : Nat) (rest : List Char) :
    parseValue (fuel + 1) ('"' :: rest) =
      match parseStringBody (rest.length + 1) rest with
      | some (cs, r) => some (Json.str (String.mk cs), r)
      | none => none := rfl

theorem pv_minus (fuel : Nat) (rest : List Char) :
    parseValue (fuel + 1) ('-' :: rest) =
      match parseNumBody rest with
      | some (n, r) => if floatStart r then none else some (Json.num (-(n : Int)), r)
      | none => none := rfl

theorem pv_bracket (fuel : Nat) (rest : List Char) :
    parseValue (fuel + 1) ('[' :: rest) =
      match skipWs rest with
      | [] => none
      | c2 :: r =>
        if c2 = ']' then some (Json.arr [], r)
        else
          match parseElems fuel (c2 :: r) with
          | some (es, r2) =>
            match r2 with
            | ']' :: r3 => some (Json.arr es, r3)
            | _ => none
          | none => none := rfl

theorem pv_lbrace (fuel : Nat) (rest : List Char) :
    parseValue (fuel + 1) (lbrace :: rest) =
      match skipWs rest with
      | c2 :: r =>
        if c2 = rbrace then some (Json.obj [], r)
        else
          match parseFields fuel (c2 :: r) with
          | some (fs, r2) =>
            match r2 with
            | c3 :: r3 => if c3 = rbrace then some (Json.obj (mkObjFields fs), r3) else none
            | _ => none
          | none => none
      | [] => none := rfl

theorem pv_other {c : Char} (fuel : Nat) (rest : List Char) (h1 : c ≠ 'n') (h2 : c ≠ 't')
    (h3 : c ≠ 'f') (h4 : c ≠ '"') (h5 : c ≠ '[') (h6 : c ≠ lbrace) (h7 : c ≠ '-') :
    parseValue (fuel + 1) (c :: rest) =
      match parseNumBody (c :: rest) with
      | some (n, r) => if floatStart r then none else some (Json.num (n : Int), r)
      | none => none := by
  simp only [parseValue]
  rw [if_neg h1, if_neg h2, if_neg h3, if_neg h4, if_neg h5, if_neg h6, if_neg h7]

end AIChem

namespace AIChem

theorem pv_bracket_empty (fuel : Nat) (rest r : List Char) (h : skipWs rest = ']' :: r) :
    parseValue (fuel + 1) ('[' :: rest) = some (Json.arr [], r) := by
  rw [pv_bracket, h]
  rfl

theorem pv_bracket_cons {c2 : Char} (fuel : Nat) (rest r : List Char)
    (h : skipWs rest = c2 :: r) (hne : c2 ≠ ']') :
    parseValue (fuel + 1) ('[' :: rest) =
      match parseElems fuel (c2 :: r) with
      | some (es, r2) =>
        match r2 with
        | ']' :: r3 => some (Json.arr es, r3)
        | _ => none
      | none => none := by
  rw [pv_bracket, h]
  show (if c2 = ']' then _ else _) = _
  rw [if_neg hne]

theorem pv_lbrace_empty (fuel : Nat) (rest r : List Char) (h : skipWs rest = rbrace :: r) :
    parseValue (fuel + 1) (lbrace :: rest) = some (Json.obj [], r) := by
  rw [pv_lbrace, h]
  show (if rbrace = rbrace then _ else _) = _
  rw [if_pos rfl]

theorem pv_lbrace_cons {c2 : Char} (fuel : Nat) (rest r : List Char)
    (h : skipWs rest = c2 :: r) (hne : c2 ≠ rbrace) :
    parseValue (fuel + 1) (lbrace :: rest) =
      match parseFields fuel (c2 :: r) with
      | some (fs, r2) =>
        match r2 with
        | c3 :: r3 => if c3 = rbrace then some (Json.obj (mkObjFields fs), r3) else none
        | _ => none
      | none => none := by
  rw [pv_lbrace, h]
  show (if c2 = rbrace then _ else _) = _
  rw [if_neg hne]

theorem pe_val {fuel : Nat} {s : List Char} {v : Json} {r : List Char}
    (h : parseValue fuel s = some (v, r)) :
    parseElems (fuel + 1) s =
      match skipWs r with
      | ',' :: r2 =>
        match parseElems fuel (skipWs r2) with
        | some (es, r3) => some (v :: es, r3)
        | none => none
      | r1 => some ([v], r1) := by
  simp only [parseElems, h]

theorem pf_key {fuel : Nat} {rest : List Char} {k r : List Char}
    (h : parseStringBody (rest.length + 1) rest = some (k, r)) :
    parseFields (fuel + 1) ('"' :: rest) =
      match skipWs r with
      | ':' :: r2 =>
        match parseValue fuel (skipWs r2) with
        | some (v, r3) =>
          match skipWs r3 with
          | ',' :: r5 =>
            match parseFields fuel (skipWs r5) with
            | some (fs, r6) => some ((String.mk k, v) :: fs, r6)
            | none => none
          | r4 => some ([(String.mk k, v)], r4)
        | none => none
      | _ => none := by
  simp only [parseFields, if_true, h]

end AIChem

namespace AIChem

mutual

theorem parse_dumpVal (j : Json) : ∀ (fuel : Nat) (t : List Char), wfVal j = true →
    jsize j ≤ fuel → (∀ c ∈ t.head?, digitVal c = none) → floatStart t = false →
    parseValue fuel (dumpVal j ++ t) = some (j, t) := by
  cases j with
  | null =>
    intro fuel t _ hsz _ _
    cases fuel with
    | zero => simp [jsize] at hsz
    | succ fuel => rfl
  | bool b =>
    intro fuel t _ hsz _ _
    cases fuel with
    | zero => simp [jsize] at hsz
    | succ fuel => cases b <;> rfl
  | num n =>
    intro fuel t _ hsz hdt hft
    cases fuel with
    | zero => simp [jsize] at hsz
    | succ fuel =>
      show parseValue (fuel + 1) (intToChars n ++ t) = some (Json.num n, t)
      unfold intToChars
      by_cases hn : n < 0
      · rw [if_pos hn]
        rw [show ('-' :: natToChars n.natAbs) ++ t = '-' :: (natToChars n.natAbs ++ t) from
          rfl]
        rw [pv_minus]
        rw [natToChars_parse n.natAbs t hdt]
        show (if floatStart t then none else some (Json.num (-(n.natAbs : Int)), t)) = _
        rw [hft]
        simp only [Bool.false_eq_true, if_false]
        have : -((n.natAbs : Int)) = n := by omega
        rw [this]
      · rw [if_neg hn]
        obtain ⟨d, r0, hr0, hd10⟩ := natToChars_head n.toNat
        rw [hr0]
        rw [show (digitChar d :: r0) ++ t = digitChar d :: (r0 ++ t) from rfl]
        rw [pv_other fuel (r0 ++ t)
          (digitChar_ne hd10 (by decide)) (digitChar_ne hd10 (by decide))
          (digitChar_ne hd10 (by decide)) (digitChar_ne hd10 (by decide))
          (digitChar_ne hd10 (by decide)) (digitChar_ne hd10 (by decide))
          (digitChar_ne hd10 (by decide))]
        rw [show digitChar d :: (r0 ++ t) = (digitChar d :: r0) ++ t from rfl]
        rw [← hr0]
        rw [natToChars_parse n.toNat t hdt]
        show (if floatStart t then none else some (Json.num ((n.toNat : Int)), t)) = _
        rw [hft]
        simp only [Bool.false_eq_true, if_false]
        have : ((n.toNat : Int)) = n := by omega
        rw [this]
  | str s =>
    intro fuel t _ hsz _ _
    cases fuel with
    | zero => simp [jsize] at hsz
    | succ fuel =>
      rw [show dumpVal (Json.str s) ++ t = '"' :: (escapeStr s.data ++ '"' :: t) by
        simp [dumpVal]]
      rw [pv_quote]
      rw [escapeStr_parse s.data ((escapeStr s.data ++ '"' :: t).length + 1) t
        (by have := escapeStr_length s.data; simp only [List.length_append]; omega)]
  | arr es =>
    intro fuel t hwf hsz hdt hft
    cases fuel with
    | zero => simp [jsize] at hsz
    | succ fuel =>
      rw [show dumpVal (Json.arr es) ++ t = '[' :: (dumpElems es ++ ']' :: t) by
        simp [dumpVal]]
      cases es with
      | nil =>
        rw [pv_bracket_empty fuel _ t (by
          simp only [dumpElems, List.nil_append]
          exact skipWs_cons_not_ws _ (by decide))]
      | cons e es2 =>
        obtain ⟨c0, r0, hr0, hws0, hne0⟩ := dumpElems_head (e :: es2) (by simp)
        have hsplit : dumpElems (e :: es2) ++ ']' :: t = c0 :: (r0 ++ ']' :: t) := by
          rw [hr0]
          rfl
        rw [pv_bracket_cons fuel (dumpElems (e :: es2) ++ ']' :: t) (r0 ++ ']' :: t)
          (by rw [hsplit]; exact skipWs_cons_not_ws _ hws0) hne0]
        rw [show c0 :: (r0 ++ ']' :: t) = dumpElems (e :: es2) ++ ']' :: t from hsplit.symm]
        rw [parse_dumpElems (e :: es2) (by simp) fuel t
          (by simpa [wfVal] using hwf) (by simp [jsize] at hsz; omega)]
        rfl
  | obj fs =>
    intro fuel t hwf hsz hdt hft
    cases fuel with
    | zero => simp [jsize] at hsz
    | succ fuel =>
      rw [show dumpVal (Json.obj fs) ++ t = lbrace :: (dumpFields fs ++ rbrace :: t) by
        simp [dumpVal]]
      cases fs with
      | nil =>
        rw [pv_lbrace_empty fuel _ t (by
          simp only [dumpFields, List.nil_append]
          exact skipWs_cons_not_ws _ (by decide))]
      | cons kv fs2 =>
        have hhead : ∃ r0, dumpFields (kv :: fs2) = '"' :: r0 := by
          cases kv with
          | mk k v =>
            cases fs2 with
            | nil => exact ⟨_, rfl⟩
            | cons kv2 fs3 => exact ⟨_, rfl⟩
        obtain ⟨r0, hr0⟩ := hhead
        have hsplit : dumpFields (kv :: fs2) ++ rbrace :: t = '"' :: (r0 ++ rbrace :: t) := by
          rw [hr0]
          rfl
        rw [pv_lbrace_cons fuel (dumpFields (kv :: fs2) ++ rbrace :: t) (r0 ++ rbrace :: t)
          (by rw [hsplit]; exact skipWs_cons_not_ws _ (by decide)) (by decide)]
        rw [show '"' :: (r0 ++ rbrace :: t) = dumpFields (kv :: fs2) ++ rbrace :: t from
          hsplit.symm]
        rw [parse_dumpFields (kv :: fs2) (by simp) fuel t
          (by simp only [wfVal, Bool.and_eq_true] at hwf; exact hwf.2)
          (by simp [jsize] at hsz; omega)]
        have hnd : noDupKeys (kv :: fs2) = true := by
          simp only [wfVal, Bool.and_eq_true] at hwf
          exact hwf.1
        show some (Json.obj (mkObjFields (kv :: fs2)), t) = some (Json.obj (kv :: fs2), t)
        rw [mkObjFields_self hnd]

theorem parse_dumpElems (es : List Json) (h : es ≠ []) : ∀ (fuel : Nat) (t : List Char),
    wfElems es = true → lsize es ≤ fuel →
    parseElems fuel (dumpElems es ++ ']' :: t) = some (es, ']' :: t) := by
  cases es with
  | nil => exact absurd rfl h
  | cons e es2 =>
    intro fuel t hwf hsz
    cases fuel with
    | zero => simp [lsize] at hsz
    | succ fuel =>
      have hwfe : wfVal e = true := by
        simp only [wfElems, Bool.and_eq_true] at hwf
        exact hwf.1
      cases es2 with
      | nil =>
        have h1 : parseValue fuel (dumpVal e ++ ']' :: t) = some (e, ']' :: t) :=
          parse_dumpVal e fuel (']' :: t) hwfe (by simp [lsize] at hsz; omega)
            (by intro c hc; simp at hc; subst hc; decide) rfl
        rw [show dumpElems [e] ++ ']' :: t = dumpVal e ++ ']' :: t by simp [dumpElems]]
        rw [pe_val h1]
        rw [skipWs_cons_not_ws _ (by decide)]
        rfl
      | cons e2 es3 =>
        have h1 : parseValue fuel (dumpVal e ++ (',' :: ' ' :: (dumpElems (e2 :: es3) ++
            ']' :: t))) = some (e, ',' :: ' ' :: (dumpElems (e2 :: es3) ++ ']' :: t)) :=
          parse_dumpVal e fuel _ hwfe (by simp [lsize] at hsz ⊢; omega)
            (by intro c hc; simp at hc; subst hc; decide) rfl
        rw [show dumpElems (e :: e2 :: es3) ++ ']' :: t = dumpVal e ++ (',' :: ' ' ::
          (dumpElems (e2 :: es3) ++ ']' :: t)) by simp [dumpElems]]
        rw [pe_val h1]
        rw [skipWs_cons_not_ws _ (by decide)]
        show (match parseElems fuel (skipWs (' ' :: (dumpElems (e2 :: es3) ++ ']' :: t))) with
          | some (es, r3) => some (e :: es, r3)
          | none => none) = _
        rw [skipWs_cons_space]
        obtain ⟨c1, r1, hr1, hws1, _⟩ := dumpElems_head (e2 :: es3) (by simp)
        rw [show skipWs (dumpElems (e2 :: es3) ++ ']' :: t) = dumpElems (e2 :: es3) ++
          ']' :: t by rw [hr1]; exact skipWs_cons_not_ws _ hws1]
        rw [parse_dumpElems (e2 :: es3) (by simp) fuel t
          (by simp only [wfElems, Bool.and_eq_true] at hwf ⊢; exact hwf.2)
          (by simp [lsize] at hsz ⊢; omega)]

theorem parse_dumpFields (fs : List (String × Json)) (h : fs ≠ []) :
    ∀ (fuel : Nat) (t : List Char), wfFields fs = true → fsize fs ≤ fuel →
    parseFields fuel (dumpFields fs ++ rbrace :: t) = some (fs, rbrace :: t) := by
  cases fs with
  | nil => exact absurd rfl h
  | cons kv fs2 =>
    intro fuel t hwf hsz
    cases fuel with
    | zero => simp [fsize] at hsz
    | succ fuel =>
      cases kv with
      | mk k v =>
        have hwfv : wfVal v = true := by
          simp only [wfFields, Bool.and_eq_true] at hwf
          exact hwf.1
        cases fs2 with
        | nil =>
          rw [show dumpFields [(k, v)] ++ rbrace :: t = '"' :: (escapeStr k.data ++
            '"' :: ':' :: ' ' :: (dumpVal v ++ rbrace :: t)) by simp [dumpFields]]
          have hk : parseStringBody ((escapeStr k.data ++ '"' :: ':' :: ' ' ::
              (dumpVal v ++ rbrace :: t)).length + 1)
              (escapeStr k.data ++ '"' :: ':' :: ' ' :: (dumpVal v ++ rbrace :: t)) =
              some (k.data, ':' :: ' ' :: (dumpVal v ++ rbrace :: t)) :=
            escapeStr_parse k.data _ _ (by
              have := escapeStr_length k.data
              simp only [List.length_append]
              omega)
          rw [pf_key hk]
          rw [skipWs_cons_not_ws _ (by decide)]
          show (match parseValue fuel (skipWs (' ' :: (dumpVal v ++ rbrace :: t))) with
            | some (v2, r3) =>
              match skipWs r3 with
              | ',' :: r5 =>
                match parseFields fuel (skipWs r5) with
                | some (fs, r6) => some ((String.mk k.data, v2) :: fs, r6)
                | none => none
              | r4 => some ([(String.mk k.data, v2)], r4)
            | none => none) = some ([(k, v)], rbrace :: t)
          rw [skipWs_cons_space]
          obtain ⟨cv, rv, hrv, hwsv, _⟩ := dumpVal_head v
          rw [show skipWs (dumpVal v ++ rbrace :: t) = dumpVal v ++ rbrace :: t by
            rw [hrv]; exact skipWs_cons_not_ws _ hwsv]
          rw [parse_dumpVal v fuel (rbrace :: t) hwfv (by simp [fsize] at hsz; omega)
            (by intro c hc; simp at hc; subst hc; decide) rfl]
          rfl
        | cons kv2 fs3 =>
          rw [show dumpFields ((k, v) :: kv2 :: fs3) ++ rbrace :: t = '"' ::
            (escapeStr k.data ++ '"' :: ':' :: ' ' :: (dumpVal v ++ ',' :: ' ' ::
              (dumpFields (kv2 :: fs3) ++ rbrace :: t))) by simp [dumpFields]]
          have hk : parseStringBody ((escapeStr k.data ++ '"' :: ':' :: ' ' ::
              (dumpVal v ++ ',' :: ' ' :: (dumpFields (kv2 :: fs3) ++ rbrace :: t))).length
                + 1)
              (escapeStr k.data ++ '"' :: ':' :: ' ' :: (dumpVal v ++ ',' :: ' ' ::
                (dumpFields (kv2 :: fs3) ++ rbrace :: t))) =
              some (k.data, ':' :: ' ' :: (dumpVal v ++ ',' :: ' ' ::
                (dumpFields (kv2 :: fs3) ++ rbrace :: t))) :=
            escapeStr_parse k.data _ _ (by
              have := escapeStr_length k.data
              simp only [List.length_append]
              omega)
          rw [pf_key hk]
          rw [skipWs_cons_not_ws _ (by decide)]
          show (match parseValue fuel (skipWs (' ' :: (dumpVal v ++ ',' :: ' ' ::
              (dumpFields (kv2 :: fs3) ++ rbrace :: t)))) with
            | some (v2, r3) =>
              match skipWs r3 with
              | ',' :: r5 =>
                match parseFields fuel (skipWs r5) with
                | some (fs, r6) => some ((String.mk k.data, v2) :: fs, r6)
                | none => none
              | r4 => some ([(String.mk k.data, v2)], r4)
            | none => none) = some ((k, v) :: kv2 :: fs3, rbrace :: t)
          rw [skipWs_cons_space]
          obtain ⟨cv, rv, hrv, hwsv, _⟩ := dumpVal_head v
          rw [show skipWs (dumpVal v ++ ',' :: ' ' :: (dumpFields (kv2 :: fs3) ++
              rbrace :: t)) = dumpVal v ++ ',' :: ' ' :: (dumpFields (kv2 :: fs3) ++
              rbrace :: t) by
            rw [hrv]; exact skipWs_cons_not_ws _ hwsv]
          rw [parse_dumpVal v fuel (',' :: ' ' :: (dumpFields (kv2 :: fs3) ++
              rbrace :: t)) hwfv (by simp [fsize] at hsz; omega)
            (by intro c hc; simp at hc; subst hc; decide) rfl]
          show (match parseFields fuel (skipWs (' ' :: (dumpFields (kv2 :: fs3) ++
              rbrace :: t))) with
            | some (fs, r6) => some ((String.mk k.data, v) :: fs, r6)
            | none => none) = some ((k, v) :: kv2 :: fs3, rbrace :: t)
          rw [skipWs_cons_space]
          have hh : ∃ r0, dumpFields (kv2 :: fs3) = '"' :: r0 := by
            cases kv2 with
            | mk k2 v2 =>
              cases fs3 with
              | nil => exact ⟨_, rfl⟩
              | cons kv3 fs4 => exact ⟨_, rfl⟩
          obtain ⟨r0, hr0⟩ := hh
          rw [show skipWs (dumpFields (kv2 :: fs3) ++ rbrace :: t) =
              dumpFields (kv2 :: fs3) ++ rbrace :: t by
            rw [hr0]; exact skipWs_cons_not_ws _ (by decide)]
          rw [parse_dumpFields (kv2 :: fs3) (by simp) fuel t
            (by simp only [wfFields, Bool.and_eq_true] at hwf ⊢; exact hwf.2)
            (by simp [fsize] at hsz ⊢; omega)]

end

end AIChem

namespace AIChem

mutual

theorem jsize_le_dump (j : Json) : jsize j ≤ (dumpVal j).length + 1 := by
  cases j with
  | null => simp [jsize, dumpVal]
  | bool b => cases b <;> simp [jsize, dumpVal]
  | num n => simp [jsize]
  | str s => simp [jsize, dumpVal]
  | arr es =>
    have h := lsize_le_dump es
    simp only [jsize, dumpVal, List.length_append, List.length_cons]
    omega
  | obj fs =>
    have h := fsize_le_dump fs
    simp only [jsize, dumpVal, List.length_append, List.length_cons]
    omega

theorem lsize_le_dump (es : List Json) : lsize es ≤ (dumpElems es).length + 2 := by
  cases es with
  | nil => simp [lsize]
  | cons e es2 =>
    have h1 := jsize_le_dump e
    cases es2 with
    | nil =>
      simp only [lsize, dumpElems, lsize]
      omega
    | cons e2 es3 =>
      have h2 := lsize_le_dump (e2 :: es3)
      simp only [lsize, dumpElems, List.length_append, List.length_cons] at h2 ⊢
      omega

theorem fsize_le_dump (fs : List (String × Json)) : fsize fs ≤ (dumpFields fs).length + 2 := by
  cases fs with
  | nil => simp [fsize]
  | cons kv fs2 =>
    cases kv with
    | mk k v =>
      have h1 := jsize_le_dump v
      cases fs2 with
      | nil =>
        simp only [fsize, dumpFields, fsize, List.length_cons, List.length_append]
        omega
      | cons kv2 fs3 =>
        have h2 := fsize_le_dump (kv2 :: fs3)
        simp only [fsize, dumpFields, List.length_append, List.length_cons] at h2 ⊢
        omega

end

/-- Round trip of the embedded serializer and parser on any canonical
document, for the wire line as written by the dispatcher (the serialized
request followed by the newline terminator). -/
theorem parse_dumps (j : Json) (h : wfVal j = true) :
    Json.parse (Json.dumps j ++ "\x0a") = some j := by
  unfold Json.parse Json.dumps
  have hdata : (String.mk (dumpVal j) ++ "\x0a").data = dumpVal j ++ ['\x0a'] := by
    show (String.mk (dumpVal j)).data ++ ("\x0a").data = _
    rfl
  rw [hdata]
  obtain ⟨c0, r0, hr0, hws0, _⟩ := dumpVal_head j
  have hskip : skipWs (dumpVal j ++ ['\x0a']) = dumpVal j ++ ['\x0a'] := by
    rw [hr0]
    exact skipWs_cons_not_ws _ hws0
  rw [hskip]
  show (match parseValue ((dumpVal j ++ ['\x0a']).length + 1) (dumpVal j ++ ['\x0a']) with
    | some (j2, r) => if (skipWs r).isEmpty = true then some j2 else none
    | none => none) = some j
  rw [parse_dumpVal j ((dumpVal j ++ ['\x0a']).length + 1) ['\x0a'] h
    (by have := jsize_le_dump j; simp only [List.length_append, List.length_cons]; omega)
    (by intro c hc; simp at hc; subst hc; decide) rfl]
  rfl

end AIChem

namespace AIChem

theorem waitLoop_skip (rid : Int) (pre : List String)
    (hpre : ∀ l ∈ pre, ∃ fs, Json.parse l = some (Json.obj fs) ∧
      pyEqInt ((dictGet fs "id").getD Json.null) rid = false) (tail : List String) :
    waitLoop rid (pre ++ tail) = waitLoop rid tail := by
  induction pre with
  | nil => rfl
  | cons l pre ih =>
    obtain ⟨fs, hl, hne⟩ := hpre l (by simp)
    simp only [List.cons_append, waitLoop, hl, hne, Bool.false_eq_true, if_false]
    exact ih (fun x hx => hpre x (by simp [hx]))

theorem dictSet_keys {α : Type} (l : List (String × α)) (k : String) (v w : α)
    (h : dictGet l k = some w) : (dictSet l k v).map Prod.fst = l.map Prod.fst := by
  induction l with
  | nil => simp [dictGet] at h
  | cons kv l ih =>
    cases kv with
    | mk k2 v2 =>
      simp only [dictGet] at h
      simp only [dictSet]
      by_cases hk : k2 = k
      · rw [if_pos hk]
        simp [hk]
      · rw [if_neg hk]
        rw [if_neg hk] at h
        simp only [List.map_cons]
        rw [ih h]

theorem dispatch_resolved {ag : Agent} {tool_call : List (String × Json)} {rid : Int}
    {m : String} {tool : Json} {sname : String} {h : ServerHandle}
    (hm : dictGet tool_call "method" = some (Json.str m)) (hne : m ≠ "")
    (ht : regGet ag.tools (Json.str m) = some tool)
    (hs : pyGetItem tool "server_name" = Except.ok (Json.str sname))
    (hh : dictGet ag.servers sname = some h) :
    dispatch_tool_call ag tool_call rid =
      ((waitLoop rid h.stdout).1,
        { tools := ag.tools,
          servers := dictSet ag.servers sname
            { stdinWrites := h.stdinWrites ++ [Json.dumps (mkRequest (Json.str m)
                ((dictGet tool_call "params").getD (Json.obj [])) rid)],
              stdout := (waitLoop rid h.stdout).2 } }) := by
  unfold dispatch_tool_call
  rw [hm]
  have hfal : pyFalsy (Json.str m) = false := by
    simp [pyFalsy, hne]
  show (if pyFalsy (Json.str m) = true then _ else _) = _
  rw [hfal]
  simp only [Bool.false_eq_true, if_false]
  show (match regGet ag.tools (Json.str m) with
    | none => _
    | some tool => _) = _
  rw [ht]
  show (match pyGetItem tool "server_name" with
    | Except.error _ => _
    | Except.ok _ => _) = _
  rw [hs]
  show (match dictGet ag.servers sname with
    | none => _
    | some h => _) = _
  rw [hh]
  rfl

end AIChem

namespace AIChem

/-- C1: a dispatch call whose registered procedure resolves to a live
process returns the response whose parsed correlation id matches the
request id, discarding any number of preceding parseable object lines with
non-matching ids and leaving the stream positioned after the match. -/
theorem dispatch_returns_matching_response
    {ag : Agent} {tool_call : List (String × Json)} {rid : Int} {m : String} {tool : Json}
    {sname : String} {h : ServerHandle} {pre rest : List String} {line : String}
    {fields : List (String × Json)}
    (hm : dictGet tool_call "method" = some (Json.str m)) (hne : m ≠ "")
    (ht : regGet ag.tools (Json.str m) = some tool)
    (hs : pyGetItem tool "server_name" = Except.ok (Json.str sname))
    (hh : dictGet ag.servers sname = some h)
    (hst : h.stdout = pre ++ line :: rest)
    (hpre : ∀ l ∈ pre, ∃ fs, Json.parse l = some (Json.obj fs) ∧
      pyEqInt ((dictGet fs "id").getD Json.null) rid = false)
    (hline : Json.parse line = some (Json.obj fields))
    (hmatch : pyEqInt ((dictGet fields "id").getD Json.null) rid = true) :
    dispatch_tool_call ag tool_call rid =
      (Except.ok (Json.obj fields),
        { tools := ag.tools,
          servers := dictSet ag.servers sname
            { stdinWrites := h.stdinWrites ++ [Json.dumps (mkRequest (Json.str m)
                ((dictGet tool_call "params").getD (Json.obj [])) rid)],
              stdout := rest } }) := by
  have hwl : waitLoop rid h.stdout = (Except.ok (Json.obj fields), rest) := by
    rw [hst, waitLoop_skip rid pre hpre]
    simp only [waitLoop, hline, hmatch, if_true]
  rw [dispatch_resolved hm hne ht hs hh, hwl]

/-- Witness for C1 at a concrete run with one stale line before the match. -/
theorem dispatch_returns_matching_response_witness :
    dispatch_tool_call
        { tools := [(Json.str "t", Json.obj [("name", Json.str "t"),
            ("server_name", Json.str "S")])],
          servers := [("S",
            { stdinWrites := [],
              stdout := ["\x7b\x22id\x22: 1\x7d",
                "\x7b\x22id\x22: 5, \x22result\x22: 3\x7d"] })] }
        [("method", Json.str "t")] 5 =
      (Except.ok (Json.obj [("id", Json.num 5), ("result", Json.num 3)]),
        { tools := [(Json.str "t", Json.obj [("name", Json.str "t"),
            ("server_name", Json.str "S")])],
          servers := [("S",
            { stdinWrites := [Json.dumps (mkRequest (Json.str "t") (Json.obj []) 5)],
              stdout := [] })] }) :=
  @dispatch_returns_matching_response
    { tools := [(Json.str "t", Json.obj [("name", Json.str "t"),
        ("server_name", Json.str "S")])],
      servers := [("S",
        { stdinWrites := [],
          stdout := ["\x7b\x22id\x22: 1\x7d", "\x7b\x22id\x22: 5, \x22result\x22: 3\x7d"] })] }
    [("method", Json.str "t")] 5 "t"
    (Json.obj [("name", Json.str "t"), ("server_name", Json.str "S")]) "S"
    { stdinWrites := [],
      stdout := ["\x7b\x22id\x22: 1\x7d", "\x7b\x22id\x22: 5, \x22result\x22: 3\x7d"] }
    ["\x7b\x22id\x22: 1\x7d"] [] "\x7b\x22id\x22: 5, \x22result\x22: 3\x7d"
    [("id", Json.num 5), ("result", Json.num 3)]
    rfl (by decide) rfl rfl rfl rfl
    (by
      intro l hl
      simp only [List.mem_singleton] at hl
      subst hl
      exact ⟨[("id", Json.num 1)], rfl, rfl⟩)
    rfl rfl

/-- C6: a dispatch call whose owning process closes its stream before any
matching response (every line on the stream being a parseable object with
a non-matching correlation id) returns the connection-closed error
document rather than blocking. -/
theorem dispatch_connection_closed
    {ag : Agent} {tool_call : List (String × Json)} {rid : Int} {m : String} {tool : Json}
    {sname : String} {h : ServerHandle}
    (hm : dictGet tool_call "method" = some (Json.str m)) (hne : m ≠ "")
    (ht : regGet ag.tools (Json.str m) = some tool)
    (hs : pyGetItem tool "server_name" = Except.ok (Json.str sname))
    (hh : dictGet ag.servers sname = some h)
    (hall : ∀ l ∈ h.stdout, ∃ fs, Json.parse l = some (Json.obj fs) ∧
      pyEqInt ((dictGet fs "id").getD Json.null) rid = false) :
    dispatch_tool_call ag tool_call rid =
      (Except.ok connClosedJson,
        { tools := ag.tools,
          servers := dictSet ag.servers sname
            { stdinWrites := h.stdinWrites ++ [Json.dumps (mkRequest (Json.str m)
                ((dictGet tool_call "params").getD (Json.obj [])) rid)],
              stdout := [] } }) := by
  have hwl : waitLoop rid h.stdout = (Except.ok connClosedJson, []) := by
    have h2 := waitLoop_skip rid h.stdout hall []
    rwa [List.append_nil] at h2
  rw [dispatch_resolved hm hne ht hs hh, hwl]

/-- Witness for C6 at a concrete run whose stream holds one stale line. -/
theorem dispatch_connection_closed_witness :
    dispatch_tool_call
        { tools := [(Json.str "t", Json.obj [("name", Json.str "t"),
            ("server_name", Json.str "S")])],
          servers := [("S", { stdinWrites := [], stdout := ["\x7b\x22id\x22: 1\x7d"] })] }
        [("method", Json.str "t")] 5 =
      (Except.ok connClosedJson,
        { tools := [(Json.str "t", Json.obj [("name", Json.str "t"),
            ("server_name", Json.str "S")])],
          servers := [("S",
            { stdinWrites := [Json.dumps (mkRequest (Json.str "t") (Json.obj []) 5)],
              stdout := [] })] }) :=
  @dispatch_connection_closed
    { tools := [(Json.str "t", Json.obj [("name", Json.str "t"),
        ("server_name", Json.str "S")])],
      servers := [("S", { stdinWrites := [], stdout := ["\x7b\x22id\x22: 1\x7d"] })] }
    [("method", Json.str "t")] 5 "t"
    (Json.obj [("name", Json.str "t"), ("server_name", Json.str "S")]) "S"
    { stdinWrites := [], stdout := ["\x7b\x22id\x22: 1\x7d"] }
    rfl (by decide) rfl rfl rfl
    (by
      intro l hl
      simp only [List.mem_singleton] at hl
      subst hl
      exact ⟨[("id", Json.num 1)], rfl, rfl⟩)

/-- C4 counterexample: at this concrete call the line in the wait loop
fails to parse and the outcome of `dispatch_tool_call` is the raised
`json.JSONDecodeError`, not a returned error value, refuting the claim
that a parse failure is returned to the caller. -/
theorem dispatch_parse_failure_counterexample :
    (dispatch_tool_call
        { tools := [(Json.str "t", Json.obj [("name", Json.str "t"),
            ("server_name", Json.str "S")])],
          servers := [("S", { stdinWrites := [], stdout := ["oops"] })] }
        [("method", Json.str "t")] 5).1 = Except.error PyError.jsonDecodeError := rfl

/-- C4 amended: a line that fails to parse during the response wait makes
`dispatch_tool_call` raise the parse error (the exception escapes the
call), whatever parseable non-matching lines preceded it. -/
theorem dispatch_parse_failure_raises
    {ag : Agent} {tool_call : List (String × Json)} {rid : Int} {m : String} {tool : Json}
    {sname : String} {h : ServerHandle} {pre rest : List String} {bad : String}
    (hm : dictGet tool_call "method" = some (Json.str m)) (hne : m ≠ "")
    (ht : regGet ag.tools (Json.str m) = some tool)
    (hs : pyGetItem tool "server_name" = Except.ok (Json.str sname))
    (hh : dictGet ag.servers sname = some h)
    (hst : h.stdout = pre ++ bad :: rest)
    (hpre : ∀ l ∈ pre, ∃ fs, Json.parse l = some (Json.obj fs) ∧
      pyEqInt ((dictGet fs "id").getD Json.null) rid = false)
    (hbad : Json.parse bad = none) :
    (dispatch_tool_call ag tool_call rid).1 = Except.error PyError.jsonDecodeError := by
  have hwl : waitLoop rid h.stdout = (Except.error PyError.jsonDecodeError, rest) := by
    rw [hst, waitLoop_skip rid pre hpre]
    simp only [waitLoop, hbad]
  rw [dispatch_resolved hm hne ht hs hh, hwl]

/-- Witness for the amended C4 at a concrete run. -/
theorem dispatch_parse_failure_raises_witness :
    (dispatch_tool_call
        { tools := [(Json.str "t", Json.obj [("name", Json.str "t"),
            ("server_name", Json.str "S")])],
          servers := [("S", { stdinWrites := [], stdout := ["oops"] })] }
        [("method", Json.str "t")] 5).1 = Except.error PyError.jsonDecodeError :=
  dispatch_parse_failure_raises rfl (by decide) rfl rfl rfl
    (show _ = ([] : List String) ++ "oops" :: [] from rfl) (by intro l hl; simp at hl) rfl

/-- C5: a dispatch call whose method is missing or None, or is a procedure
name absent from the registry, returns the unknown-tool error document and
leaves the whole agent state untouched, writing and reading nothing. -/
theorem dispatch_unknown_procedure (ag : Agent) (tool_call : List (String × Json)) (rid : Int)
    (hmv : (dictGet tool_call "method").getD Json.null = Json.null ∨
      (∃ m, (dictGet tool_call "method").getD Json.null = Json.str m ∧
        regGet ag.tools (Json.str m) = none)) :
    dispatch_tool_call ag tool_call rid =
      (Except.ok (unknownToolJson ((dictGet tool_call "method").getD Json.null)), ag) := by
  unfold dispatch_tool_call
  rcases hmv with hnull | ⟨m, hm, hreg⟩
  · rw [hnull]
    rfl
  · rw [hm]
    by_cases hme : m = ""
    · subst hme
      rfl
    · have hfal : pyFalsy (Json.str m) = false := by
        simp [pyFalsy, hme]
      show (if pyFalsy (Json.str m) = true then _ else _) = _
      rw [hfal]
      simp only [Bool.false_eq_true, if_false]
      show (match regGet ag.tools (Json.str m) with
        | none => _
        | some tool => _) = _
      rw [hreg]

/-- Witness for C5: a call without a method member on an empty agent. -/
theorem dispatch_unknown_procedure_witness :
    dispatch_tool_call { tools := [], servers := [] } [] 0 =
      (Except.ok (unknownToolJson Json.null), { tools := [], servers := [] }) :=
  dispatch_unknown_procedure { tools := [], servers := [] } [] 0 (Or.inl rfl)

/-- C10: whatever `dispatch_tool_call` returns, the tool registry and the
set of registered server names are unchanged by the call. -/
theorem dispatch_preserves_registry (ag : Agent) (tool_call : List (String × Json))
    (rid : Int) :
    (dispatch_tool_call ag tool_call rid).2.tools = ag.tools ∧
      (dispatch_tool_call ag tool_call rid).2.servers.map Prod.fst =
        ag.servers.map Prod.fst := by
  unfold dispatch_tool_call
  dsimp only
  split
  · exact ⟨rfl, rfl⟩
  split
  · exact ⟨rfl, rfl⟩
  · exact ⟨rfl, rfl⟩
  split
  · exact ⟨rfl, rfl⟩
  split
  · exact ⟨rfl, rfl⟩
  split
  · exact ⟨rfl, rfl⟩
  · exact ⟨rfl, rfl⟩
  · next sname heq =>
    split
    · exact ⟨rfl, rfl⟩
    · next h heq2 =>
      refine ⟨rfl, ?_⟩
      exact dictSet_keys ag.servers sname _ h heq2
  · exact ⟨rfl, rfl⟩

end AIChem

namespace AIChem

/-- C7: the request document built by the dispatcher, serialized to its
wire line (terminated by the newline) and parsed back, yields an object
whose method, params and id members are identical to the originals, for
every method name, canonical params document and id. -/
theorem request_roundtrip (m : String) (p : Json) (i : Int) (hp : wfVal p = true) :
    Json.parse (Json.dumps (mkRequest (Json.str m) p i) ++ "\x0a") =
        some (mkRequest (Json.str m) p i) ∧
      ∃ fs, mkRequest (Json.str m) p i = Json.obj fs ∧
        dictGet fs "method" = some (Json.str m) ∧
        dictGet fs "params" = some p ∧
        dictGet fs "id" = some (Json.num i) := by
  constructor
  · apply parse_dumps
    simp only [mkRequest, wfVal, wfFields, noDupKeys]
    simp [hp]
  · exact ⟨_, rfl, rfl, rfl, rfl⟩

/-- Witness for C7 at a concrete request. -/
theorem request_roundtrip_witness :
    Json.parse (Json.dumps (mkRequest (Json.str "suggest")
        (Json.obj [("x", Json.num 1)]) 7) ++ "\x0a") =
        some (mkRequest (Json.str "suggest") (Json.obj [("x", Json.num 1)]) 7) ∧
      ∃ fs, mkRequest (Json.str "suggest") (Json.obj [("x", Json.num 1)]) 7 = Json.obj fs ∧
        dictGet fs "method" = some (Json.str "suggest") ∧
        dictGet fs "params" = some (Json.obj [("x", Json.num 1)]) ∧
        dictGet fs "id" = some (Json.num 7) :=
  request_roundtrip "suggest" (Json.obj [("x", Json.num 1)]) 7 rfl

end AIChem

namespace AIChem

theorem regGet_append_ne (acc : Registry) (a : String) (v : Json) (b : String)
    (h : regGet acc (Json.str b) = none) (hne : a ≠ b) :
    regGet (acc ++ [(Json.str a, v)]) (Json.str b) = none := by
  induction acc with
  | nil =>
    simp only [List.nil_append, regGet]
    rw [if_neg (show ¬pyKeyEq (Json.str a) (Json.str b) = true by simp [pyKeyEq, hne])]
  | cons kv acc ih =>
    cases kv with
    | mk k2 v2 =>
      simp only [regGet] at h ⊢
      by_cases hk : pyKeyEq k2 (Json.str b) = true
      · rw [hk] at h
        simp at h
      · rw [if_neg hk] at h ⊢
        exact ih h

theorem regSet_append (acc : Registry) (k v : Json) (h : regGet acc k = none) :
    regSet acc k v = acc ++ [(k, v)] := by
  induction acc with
  | nil => rfl
  | cons kv acc ih =>
    cases kv with
    | mk k2 v2 =>
      simp only [regGet] at h
      by_cases hk : pyKeyEq k2 k = true
      · rw [if_pos hk] at h
        simp at h
      · rw [if_neg hk] at h
        simp only [regSet]
        rw [if_neg hk]
        rw [ih h]
        rfl

theorem registerTools_spec (name : String) :
    ∀ (specs : List (String × List (String × Json))) (acc : Registry),
      (∀ p ∈ specs, regGet acc (Json.str p.1) = none) →
      (specs.map Prod.fst).Nodup →
      (∀ p ∈ specs, dictGet p.2 "name" = some (Json.str p.1)) →
      registerTools name acc (specs.map fun p => Json.obj p.2) =
        (acc ++ specs.map (fun p => (Json.str p.1,
          Json.obj (dictSet p.2 "server_name" (Json.str name)))), none) := by
  intro specs
  induction specs with
  | nil =>
    intro acc _ _ _
    simp [registerTools]
  | cons p specs ih =>
    intro acc hacc hnd hnames
    cases p with
    | mk pname pfields =>
      simp only [List.map_cons, registerTools]
      rw [hnames (pname, pfields) (by simp)]
      dsimp only
      rw [regSet_append acc (Json.str pname) _ (hacc (pname, pfields) (by simp))]
      have hnd2 : (specs.map Prod.fst).Nodup := by
        simp only [List.map_cons, List.nodup_cons] at hnd
        exact hnd.2
      have hnot : pname ∉ specs.map Prod.fst := by
        simp only [List.map_cons, List.nodup_cons] at hnd
        exact hnd.1
      rw [ih (acc ++ [(Json.str pname,
          Json.obj (dictSet pfields "server_name" (Json.str name)))])
        ?_ hnd2 (fun q hq => hnames q (by simp [hq]))]
      · simp
      · intro q hq
        apply regGet_append_ne
        · exact hacc q (by simp [hq])
        · intro hcontra
          exact hnot (hcontra ▸ List.mem_map_of_mem Prod.fst hq)

theorem discoverStep_eq {tools : Registry} {name : String} {h : ServerHandle}
    {L : String} {rest : List String} {adv : Json} {ts : List Json}
    (hst : h.stdout = L :: rest) (hadv : Json.parse L = some adv)
    (hts : advertisedTools adv = Except.ok (Json.arr ts)) :
    discoverStep tools name h =
      (registerTools name tools ts,
        { stdinWrites := h.stdinWrites, stdout := rest }) := by
  unfold discoverStep
  rw [hst]
  dsimp only [List.headD, List.tail]
  rw [hadv]
  dsimp only
  rw [hts]

end AIChem

namespace AIChem

/-- C2: discovery on a process whose first line is a well-formed
advertisement (a parseable envelope carrying a capability list of named
tool objects with pairwise distinct names) registers exactly the
advertised procedures, each name bound to its advertised entry with the
advertising server recorded under the `server_name` member. -/
theorem discover_registers_advertised (name : String) (h : ServerHandle) (L : String)
    (rest : List String) (adv : Json) (specs : List (String × List (String × Json)))
    (hst : h.stdout = L :: rest)
    (hadv : Json.parse L = some adv)
    (hts : advertisedTools adv = Except.ok (Json.arr (specs.map fun p => Json.obj p.2)))
    (hnames : ∀ p ∈ specs, dictGet p.2 "name" = some (Json.str p.1))
    (hnd : (specs.map Prod.fst).Nodup) :
    discover_tools { tools := [], servers := [(name, h)] } =
      ({ tools := specs.map (fun p => (Json.str p.1,
           Json.obj (dictSet p.2 "server_name" (Json.str name)))),
         servers := [(name, { stdinWrites := h.stdinWrites, stdout := rest })] }, none) := by
  unfold discover_tools discoverLoop
  rw [discoverStep_eq hst hadv hts]
  rw [registerTools_spec name specs [] (by intro p _; rfl) hnd hnames]
  rfl

/-- Witness for C2: one process advertising two named tools. -/
theorem discover_registers_advertised_witness :
    discover_tools
        { tools := [],
          servers := [("BO",
            { stdinWrites := [],
              stdout := ["\x7b\x22params\x22: \x7b\x22server\x22: \x7b\x22capabilities\x22: \x7b\x22tools\x22: [\x7b\x22name\x22: \x22suggest\x22\x7d, \x7b\x22name\x22: \x22observe\x22\x7d]\x7d\x7d\x7d\x7d"] })] } =
      ({ tools := [(Json.str "suggest", Json.obj [("name", Json.str "suggest"),
            ("server_name", Json.str "BO")]),
          (Json.str "observe", Json.obj [("name", Json.str "observe"),
            ("server_name", Json.str "BO")])],
         servers := [("BO", { stdinWrites := [], stdout := [] })] }, none) :=
  discover_registers_advertised "BO"
    { stdinWrites := [],
      stdout := ["\x7b\x22params\x22: \x7b\x22server\x22: \x7b\x22capabilities\x22: \x7b\x22tools\x22: [\x7b\x22name\x22: \x22suggest\x22\x7d, \x7b\x22name\x22: \x22observe\x22\x7d]\x7d\x7d\x7d\x7d"] }
    "\x7b\x22params\x22: \x7b\x22server\x22: \x7b\x22capabilities\x22: \x7b\x22tools\x22: [\x7b\x22name\x22: \x22suggest\x22\x7d, \x7b\x22name\x22: \x22observe\x22\x7d]\x7d\x7d\x7d\x7d"
    []
    (Json.obj [("params", Json.obj [("server", Json.obj [("capabilities", Json.obj
      [("tools", Json.arr [Json.obj [("name", Json.str "suggest")],
        Json.obj [("name", Json.str "observe")]])])])])])
    [("suggest", [("name", Json.str "suggest")]), ("observe", [("name", Json.str "observe")])]
    rfl rfl rfl
    (by
      intro p hp
      simp only [List.mem_cons, List.mem_singleton, List.not_mem_nil, or_false] at hp
      rcases hp with hp | hp <;> (subst hp; rfl))
    (by decide)

/-- C8: when two processes both advertise a procedure with the same name,
after discovery the registry holds exactly one entry for that name, bound
to the entry of the last-registered process with its name recorded. -/
theorem discover_collision_last_wins
    (n1 n2 : String) (h1 h2 : ServerHandle) (l1 l2 : String) (r1 r2 : List String)
    (a1 a2 : Json) (t : String) (fs1 fs2 : List (String × Json))
    (hs1 : h1.stdout = l1 :: r1) (hp1 : Json.parse l1 = some a1)
    (ht1 : advertisedTools a1 = Except.ok (Json.arr [Json.obj fs1]))
    (hn1 : dictGet fs1 "name" = some (Json.str t))
    (hs2 : h2.stdout = l2 :: r2) (hp2 : Json.parse l2 = some a2)
    (ht2 : advertisedTools a2 = Except.ok (Json.arr [Json.obj fs2]))
    (hn2 : dictGet fs2 "name" = some (Json.str t)) :
    discover_tools { tools := [], servers := [(n1, h1), (n2, h2)] } =
      ({ tools := [(Json.str t, Json.obj (dictSet fs2 "server_name" (Json.str n2)))],
         servers := [(n1, { stdinWrites := h1.stdinWrites, stdout := r1 }),
           (n2, { stdinWrites := h2.stdinWrites, stdout := r2 })] }, none) := by
  have hreg1 : registerTools n1 [] [Json.obj fs1] =
      ([(Json.str t, Json.obj (dictSet fs1 "server_name" (Json.str n1)))], none) := by
    simp only [registerTools, hn1]
    rfl
  have hkeq : pyKeyEq (Json.str t) (Json.str t) = true := by
    simp [pyKeyEq]
  have hreg2 : registerTools n2
      [(Json.str t, Json.obj (dictSet fs1 "server_name" (Json.str n1)))] [Json.obj fs2] =
      ([(Json.str t, Json.obj (dictSet fs2 "server_name" (Json.str n2)))], none) := by
    simp only [registerTools, hn2]
    rw [show regSet [(Json.str t, Json.obj (dictSet fs1 "server_name" (Json.str n1)))]
        (Json.str t) (Json.obj (dictSet fs2 "server_name" (Json.str n2))) =
        [(Json.str t, Json.obj (dictSet fs2 "server_name" (Json.str n2)))] by
      simp only [regSet]
      rw [if_pos hkeq]]
  unfold discover_tools discoverLoop
  rw [discoverStep_eq hs1 hp1 ht1, hreg1]
  dsimp only
  have hloop : discoverLoop
      [(Json.str t, Json.obj (dictSet fs1 "server_name" (Json.str n1)))] [(n2, h2)] =
      ([(Json.str t, Json.obj (dictSet fs2 "server_name" (Json.str n2)))],
        [(n2, { stdinWrites := h2.stdinWrites, stdout := r2 })], none) := by
    simp only [discoverLoop]
    rw [discoverStep_eq hs2 hp2 ht2, hreg2]
  rw [hloop]

/-- Witness for C8: two processes advertising the same tool name. -/
theorem discover_collision_last_wins_witness :
    discover_tools
        { tools := [],
          servers := [
            ("A",
              { stdinWrites := [],
                stdout := ["\x7b\x22params\x22: \x7b\x22server\x22: \x7b\x22capabilities\x22: \x7b\x22tools\x22: [\x7b\x22name\x22: \x22sug\x22, \x22v\x22: 1\x7d]\x7d\x7d\x7d\x7d"] }),
            ("B",
              { stdinWrites := [],
                stdout := ["\x7b\x22params\x22: \x7b\x22server\x22: \x7b\x22capabilities\x22: \x7b\x22tools\x22: [\x7b\x22name\x22: \x22sug\x22, \x22v\x22: 2\x7d]\x7d\x7d\x7d\x7d"] })] } =
      ({ tools := [(Json.str "sug", Json.obj [("name", Json.str "sug"), ("v", Json.num 2),
           ("server_name", Json.str "B")])],
         servers := [("A", { stdinWrites := [], stdout := [] }),
           ("B", { stdinWrites := [], stdout := [] })] }, none) :=
  discover_collision_last_wins "A" "B"
    { stdinWrites := [],
      stdout := ["\x7b\x22params\x22: \x7b\x22server\x22: \x7b\x22capabilities\x22: \x7b\x22tools\x22: [\x7b\x22name\x22: \x22sug\x22, \x22v\x22: 1\x7d]\x7d\x7d\x7d\x7d"] }
    { stdinWrites := [],
      stdout := ["\x7b\x22params\x22: \x7b\x22server\x22: \x7b\x22capabilities\x22: \x7b\x22tools\x22: [\x7b\x22name\x22: \x22sug\x22, \x22v\x22: 2\x7d]\x7d\x7d\x7d\x7d"] }
    "\x7b\x22params\x22: \x7b\x22server\x22: \x7b\x22capabilities\x22: \x7b\x22tools\x22: [\x7b\x22name\x22: \x22sug\x22, \x22v\x22: 1\x7d]\x7d\x7d\x7d\x7d"
    "\x7b\x22params\x22: \x7b\x22server\x22: \x7b\x22capabilities\x22: \x7b\x22tools\x22: [\x7b\x22name\x22: \x22sug\x22, \x22v\x22: 2\x7d]\x7d\x7d\x7d\x7d"
    [] []
    (Json.obj [("params", Json.obj [("server", Json.obj [("capabilities", Json.obj
      [("tools", Json.arr [Json.obj [("name", Json.str "sug"), ("v", Json.num 1)]])])])])])
    (Json.obj [("params", Json.obj [("server", Json.obj [("capabilities", Json.obj
      [("tools", Json.arr [Json.obj [("name", Json.str "sug"), ("v", Json.num 2)]])])])])])
    "sug" [("name", Json.str "sug"), ("v", Json.num 1)]
    [("name", Json.str "sug"), ("v", Json.num 2)]
    rfl rfl rfl rfl rfl rfl rfl rfl

end AIChem

namespace AIChem

/-- C3 counterexample: a process whose first line parses but carries no
capability list (the empty envelope) does not make discovery fail — the
missing members default to an empty tool list, discovery succeeds with no
exception and registers zero procedures, refuting the claimed
`ProtocolError` for that case. -/
theorem discover_missing_capabilities_counterexample :
    discover_tools
        { tools := [],
          servers := [("P", { stdinWrites := [], stdout := ["\x7b\x7d"] })] } =
      ({ tools := [], servers := [("P", { stdinWrites := [], stdout := [] })] }, none) := rfl

/-- C3 amended: a first line that fails to parse raises the parse error,
which aborts discovery as a whole (for that process and all later ones)
having registered nothing; a first line that parses but lacks a
capability list does not fail: zero procedures are registered for that
process and discovery continues with the remaining processes. -/
theorem discover_nonconformant_first_line (ag : Agent) (name : String) (h : ServerHandle)
    (rest : List (String × ServerHandle)) (hsv : ag.servers = (name, h) :: rest) :
    (Json.parse (h.stdout.headD "") = none →
      discover_tools ag =
        ({ tools := ag.tools,
           servers := (name, { stdinWrites := h.stdinWrites, stdout := h.stdout.tail })
             :: rest }, some PyError.jsonDecodeError)) ∧
    (∀ adv, Json.parse (h.stdout.headD "") = some adv →
      advertisedTools adv = Except.ok (Json.arr []) →
      discover_tools ag =
        ({ tools := (discoverLoop ag.tools rest).1,
           servers := (name, { stdinWrites := h.stdinWrites, stdout := h.stdout.tail })
             :: (discoverLoop ag.tools rest).2.1 }, (discoverLoop ag.tools rest).2.2)) := by
  constructor
  · intro hbad
    unfold discover_tools
    rw [hsv]
    unfold discoverLoop
    rw [show discoverStep ag.tools name h =
        ((ag.tools, some PyError.jsonDecodeError),
          { stdinWrites := h.stdinWrites, stdout := h.stdout.tail }) by
      unfold discoverStep
      dsimp only
      rw [hbad]]
  · intro adv hadv hts
    unfold discover_tools
    rw [hsv]
    simp only [discoverLoop]
    rw [show discoverStep ag.tools name h =
        ((ag.tools, none), { stdinWrites := h.stdinWrites, stdout := h.stdout.tail }) by
      unfold discoverStep
      dsimp only
      rw [hadv]
      dsimp only
      rw [hts]
      rfl]

/-- Witness for the amended C3: part one at a process whose first line is
not JSON, part two at a process sending an envelope without capabilities,
followed by a second conformant process that is still discovered. -/
theorem discover_nonconformant_first_line_witness :
    (discover_tools
        { tools := [],
          servers := [("P", { stdinWrites := [], stdout := ["oops"] }),
            ("Q", { stdinWrites := [], stdout := ["x"] })] } =
      ({ tools := [],
         servers := [("P", { stdinWrites := [], stdout := [] }),
           ("Q", { stdinWrites := [], stdout := ["x"] })] },
        some PyError.jsonDecodeError)) ∧
    (discover_tools
        { tools := [],
          servers := [("P", { stdinWrites := [], stdout := ["\x7b\x7d"] }),
            ("Q",
              { stdinWrites := [],
                stdout := ["\x7b\x22params\x22: \x7b\x22server\x22: \x7b\x22capabilities\x22: \x7b\x22tools\x22: [\x7b\x22name\x22: \x22sug\x22\x7d]\x7d\x7d\x7d\x7d"] })] } =
      ({ tools := [(Json.str "sug", Json.obj [("name", Json.str "sug"),
           ("server_name", Json.str "Q")])],
         servers := [("P", { stdinWrites := [], stdout := [] }),
           ("Q", { stdinWrites := [], stdout := [] })] }, none)) := by
  constructor
  · exact (discover_nonconformant_first_line
      { tools := [],
        servers := [("P", { stdinWrites := [], stdout := ["oops"] }),
          ("Q", { stdinWrites := [], stdout := ["x"] })] }
      "P" { stdinWrites := [], stdout := ["oops"] }
      [("Q", { stdinWrites := [], stdout := ["x"] })] rfl).1 rfl
  · exact (discover_nonconformant_first_line
      { tools := [],
        servers := [("P", { stdinWrites := [], stdout := ["\x7b\x7d"] }),
          ("Q",
            { stdinWrites := [],
              stdout := ["\x7b\x22params\x22: \x7b\x22server\x22: \x7b\x22capabilities\x22: \x7b\x22tools\x22: [\x7b\x22name\x22: \x22sug\x22\x7d]\x7d\x7d\x7d\x7d"] })] }
      "P" { stdinWrites := [], stdout := ["\x7b\x7d"] }
      [("Q",
        { stdinWrites := [],
          stdout := ["\x7b\x22params\x22: \x7b\x22server\x22: \x7b\x22capabilities\x22: \x7b\x22tools\x22: [\x7b\x22name\x22: \x22sug\x22\x7d]\x7d\x7d\x7d\x7d"] })] rfl).2
      (Json.obj []) rfl rfl

/-- C9: the planner prompt depends only on the names and the description
members of the registry entries: two registries whose entries agree on
name and description lookup, in order, produce identical prompts whatever
their other members (such as parameter schemas) hold. -/
theorem planner_prompt_names_descriptions_only (t1 t2 : Registry)
    (s1 s2 : List (String × ServerHandle))
    (h : t1.map nameDescProj = t2.map nameDescProj) :
    build_planner_system_prompt { tools := t1, servers := s1 } =
      build_planner_system_prompt { tools := t2, servers := s2 } := by
  unfold build_planner_system_prompt
  have hlines : plannerToolLines t1 = plannerToolLines t2 := by
    clear s1 s2
    induction t1 generalizing t2 with
    | nil =>
      cases t2 with
      | nil => rfl
      | cons kv t2 => simp at h
    | cons kv t1 ih =>
      cases t2 with
      | nil => simp at h
      | cons kv2 t2 =>
        simp only [List.map_cons, List.cons.injEq] at h
        cases kv with
        | mk n1 v1 =>
          cases kv2 with
          | mk n2 v2 =>
            have hn : n1 = n2 := congrArg Prod.fst h.1
            have hd : pyGetItem v1 "description" = pyGetItem v2 "description" := by
              have := congrArg Prod.snd h.1
              simpa [nameDescProj] using this
            simp only [plannerToolLines, hd, hn, ih t2 h.2]
  rw [hlines]

/-- Witness for C9: two registries with identical names and descriptions
but different parameter schemas produce the same prompt. -/
theorem planner_prompt_names_descriptions_only_witness :
    build_planner_system_prompt
        { tools := [(Json.str "sug", Json.obj [("name", Json.str "sug"),
            ("description", Json.str "propose"), ("parameters", Json.obj [("x", Json.null)])])],
          servers := [] } =
      build_planner_system_prompt
        { tools := [(Json.str "sug", Json.obj [("name", Json.str "sug"),
            ("description", Json.str "propose"), ("parameters", Json.num 7),
            ("extra", Json.bool true)])],
          servers := [] } :=
  planner_prompt_names_descriptions_only
    [(Json.str "sug", Json.obj [("name", Json.str "sug"),
      ("description", Json.str "propose"), ("parameters", Json.obj [("x", Json.null)])])]
    [(Json.str "sug", Json.obj [("name", Json.str "sug"),
      ("description", Json.str "propose"), ("parameters", Json.num 7),
      ("extra", Json.bool true)])]
    [] [] rfl

end AIChem
